import Mathlib

/-!
# Formal model of the terminus-core control plane

A shallow embedding of the parts of the `terminus-core` repository that the
specification's claims are about: the protocol codec
(`packages/protocol/src/utils.ts`, `messages.ts`), the prepaid balance ledger
(`apps/control-plane/src/payment/user-balance.ts`), its persistence layer, the
job dispatcher (`dispatcher.ts`), the retry/dead-letter job queue
(`job-queue.ts`), the orchestrator's intent selection (`orchestrator.ts`) and
the chat HTTP handler (`http.ts`).

JavaScript numbers are modelled as exact rationals (`ℚ`), timestamps as `ℤ`,
JS `Map`/`Set` as association lists / lists with the same replace-or-append and
first-match semantics, and the single-threaded event loop as explicit state
passing over event lists.
-/

namespace Terminus

/-! ## Association-list maps (JS `Map` semantics) -/

/-- Lookup of the first entry with the given key (JS `Map.get`). -/
def mget {α : Type} : List (String × α) → String → Option α
  | [], _ => none
  | (k', v) :: t, k => if k' = k then some v else mget t k

/-- Replace the first entry with the given key, or append (JS `Map.set`). -/
def mset {α : Type} : List (String × α) → String → α → List (String × α)
  | [], k, v => [(k, v)]
  | (k', v') :: t, k, v =>
      if k' = k then (k, v) :: t else (k', v') :: mset t k v

/-- Remove the first entry with the given key (JS `Map.delete`). -/
def mdel {α : Type} : List (String × α) → String → List (String × α)
  | [], _ => []
  | (k', v') :: t, k => if k' = k then t else (k', v') :: mdel t k

/-- Key membership (JS `Map.has`). -/
def containsKey {α : Type} (l : List (String × α)) (k : String) : Bool :=
  (mget l k).isSome

/-- JS `String.prototype.toLowerCase` (ASCII case mapping, written over the
char list so that proofs can evaluate it). -/
def strToLower (s : String) : String :=
  ⟨s.data.map Char.toLower⟩

/-! ## Protocol codec (`packages/protocol/src/messages.ts`, `utils.ts`)

Wire values are modelled as JSON trees; the JSON string codec
(`JSON.stringify` / `JSON.parse`) is order- and value-faithful on trees, so
`parseMessage`'s behaviour is modelled on the decoded tree, with `none`
standing for an input string whose JSON decoding throws. -/

/-- A JSON value as produced by `JSON.parse`. -/
inductive Json : Type
  | null : Json
  | bool (b : Bool) : Json
  | num (q : ℚ) : Json
  | str (s : String) : Json
  | arr (elems : List Json) : Json
  | obj (fields : List (String × Json)) : Json

/-- JS property access `v[name]`; `none` is `undefined` (also for
non-objects). -/
def getField : Json → String → Option Json
  | Json.obj fields, name => mget fields name
  | _, _ => none

/-- JS truthiness of a possibly-`undefined` value: `undefined`, `null`,
`false`, `0` and `""` are falsy. -/
def truthy : Option Json → Bool
  | none => false
  | some Json.null => false
  | some (Json.bool b) => b
  | some (Json.num q) => decide (q ≠ 0)
  | some (Json.str s) => decide (s ≠ "")
  | some (Json.arr _) => true
  | some (Json.obj _) => true

/-- `parseMessage` from `utils.ts`: `JSON.parse` the input (a thrown parse
error is caught and yields `null`, here `none`), reject when any of `type`,
`traceId`, `timestamp` is absent or falsy, and otherwise return the parsed
value unchanged (the TS code merely casts it, performing no further
validation). -/
def parseMessage : Option Json → Option Json
  | none => none
  | some parsed =>
      if !truthy (getField parsed "type") || !truthy (getField parsed "traceId")
          || !truthy (getField parsed "timestamp") then
        none
      else
        some parsed

/-- `specs` field of the AUTH payload. -/
structure MachineSpecs where
  os : String
  arch : String
  cpuCores : ℚ
  totalMemoryGB : ℚ
  nodeVersion : String
  deriving DecidableEq

/-- Payload of an `AUTH` frame. -/
structure AuthPayload where
  nodeId : String
  capabilities : List String
  agentTypes : Option (List String)
  wallet : Option String
  specs : MachineSpecs
  secret : String
  version : String
  deriving DecidableEq

/-- Payload of an `AUTH_ACK` frame. -/
structure AuthAckPayload where
  success : Bool
  message : Option String
  heartbeatInterval : Option ℚ
  deriving DecidableEq

/-- Worker status carried in heartbeats. -/
inductive NodeStatus : Type
  | IDLE | BUSY | DRAINING
  deriving DecidableEq

def NodeStatus.toStr : NodeStatus → String
  | .IDLE => "IDLE"
  | .BUSY => "BUSY"
  | .DRAINING => "DRAINING"

/-- Payload of a `HEARTBEAT` frame. -/
structure HeartbeatPayload where
  status : NodeStatus
  cpuUsage : ℚ
  memoryUsage : ℚ
  activeJobs : ℚ
  deriving DecidableEq

/-- Payload of a `HEARTBEAT_ACK` frame. -/
structure HeartbeatAckPayload where
  received : Bool
  deriving DecidableEq

/-- Payload of a `JOB_ASSIGN` frame; `input` is the opaque job input. -/
structure JobAssignPayload where
  jobId : String
  agentId : String
  runId : String
  input : Json
  timeout : Option ℚ

/-- Result status of a `JOB_RESULT` frame. -/
inductive JobResultStatus : Type
  | SUCCESS | ERROR | TIMEOUT
  deriving DecidableEq

def JobResultStatus.toStr : JobResultStatus → String
  | .SUCCESS => "SUCCESS"
  | .ERROR => "ERROR"
  | .TIMEOUT => "TIMEOUT"

/-- `error` field of a `JOB_RESULT` payload. -/
structure JobError where
  code : String
  message : String
  stack : Option String
  deriving DecidableEq

/-- `metrics` field of a `JOB_RESULT` payload. -/
structure JobMetrics where
  startTime : ℚ
  endTime : ℚ
  durationMs : ℚ
  deriving DecidableEq

/-- Payload of a `JOB_RESULT` frame. -/
structure JobResultPayload where
  jobId : String
  runId : String
  status : JobResultStatus
  output : Option Json
  logs : List String
  error : Option JobError
  metrics : JobMetrics

/-- One entry of `previousMessages` in an `AGENT_JOB` context. -/
structure ChatTurn where
  role : String
  content : String
  deriving DecidableEq

/-- `context` field of an `AGENT_JOB` payload. -/
structure AgentContext where
  conversationId : Option String
  previousMessages : Option (List ChatTurn)
  userData : Option (List (String × Json))

/-- Payload of an `AGENT_JOB` frame. -/
structure AgentJobPayload where
  jobId : String
  agentType : String
  userQuery : String
  context : Option AgentContext

/-- One entry of `toolsUsed` in an `AGENT_JOB_RESULT` payload. -/
structure ToolUse where
  name : String
  params : Json
  result : Json

/-- `metrics` field of an `AGENT_JOB_RESULT` payload. -/
structure AgentJobMetrics where
  llmTokensUsed : Option ℚ
  executionTimeMs : ℚ
  deriving DecidableEq

/-- `error` field of an `AGENT_JOB_RESULT` payload. -/
structure AgentJobError where
  code : String
  message : String
  deriving DecidableEq

/-- Payload of an `AGENT_JOB_RESULT` frame. -/
structure AgentJobResultPayload where
  jobId : String
  success : Bool
  response : String
  toolsUsed : Option (List ToolUse)
  metrics : Option AgentJobMetrics
  error : Option AgentJobError

/-- Payload of an `ERROR` frame. -/
structure ErrorPayload where
  code : String
  message : String
  fatal : Bool
  deriving DecidableEq

/-- Common fields of every frame (`BaseMessage`). -/
structure BaseFields where
  traceId : String
  timestamp : ℚ
  deriving DecidableEq

/-- The tagged union `TerminusMessage` of `messages.ts`. -/
inductive TerminusMessage : Type
  | auth (base : BaseFields) (payload : AuthPayload)
  | authAck (base : BaseFields) (payload : AuthAckPayload)
  | heartbeat (base : BaseFields) (payload : HeartbeatPayload)
  | heartbeatAck (base : BaseFields) (payload : HeartbeatAckPayload)
  | jobAssign (base : BaseFields) (payload : JobAssignPayload)
  | jobResult (base : BaseFields) (payload : JobResultPayload)
  | agentJob (base : BaseFields) (payload : AgentJobPayload)
  | agentJobResult (base : BaseFields) (payload : AgentJobResultPayload)
  | error (base : BaseFields) (payload : ErrorPayload)

/-- The `type` discriminator string of a frame. -/
def TerminusMessage.msgType : TerminusMessage → String
  | .auth .. => "AUTH"
  | .authAck .. => "AUTH_ACK"
  | .heartbeat .. => "HEARTBEAT"
  | .heartbeatAck .. => "HEARTBEAT_ACK"
  | .jobAssign .. => "JOB_ASSIGN"
  | .jobResult .. => "JOB_RESULT"
  | .agentJob .. => "AGENT_JOB"
  | .agentJobResult .. => "AGENT_JOB_RESULT"
  | .error .. => "ERROR"

/-- The common fields of a frame. -/
def TerminusMessage.base : TerminusMessage → BaseFields
  | .auth b _ => b
  | .authAck b _ => b
  | .heartbeat b _ => b
  | .heartbeatAck b _ => b
  | .jobAssign b _ => b
  | .jobResult b _ => b
  | .agentJob b _ => b
  | .agentJobResult b _ => b
  | .error b _ => b

/-- A field that `JSON.stringify` omits when the value is `undefined`. -/
def optField (name : String) : Option Json → List (String × Json)
  | none => []
  | some v => [(name, v)]

def encStrList (l : List String) : Json :=
  Json.arr (l.map Json.str)

def encSpecs (s : MachineSpecs) : Json :=
  Json.obj [("os", .str s.os), ("arch", .str s.arch), ("cpuCores", .num s.cpuCores),
    ("totalMemoryGB", .num s.totalMemoryGB), ("nodeVersion", .str s.nodeVersion)]

def encAuth (p : AuthPayload) : Json :=
  Json.obj ([("nodeId", .str p.nodeId), ("capabilities", encStrList p.capabilities)]
    ++ optField "agentTypes" (p.agentTypes.map encStrList)
    ++ optField "wallet" (p.wallet.map Json.str)
    ++ [("specs", encSpecs p.specs), ("secret", .str p.secret), ("version", .str p.version)])

def encAuthAck (p : AuthAckPayload) : Json :=
  Json.obj ([("success", .bool p.success)]
    ++ optField "message" (p.message.map Json.str)
    ++ optField "heartbeatInterval" (p.heartbeatInterval.map Json.num))

def encHeartbeat (p : HeartbeatPayload) : Json :=
  Json.obj [("status", .str p.status.toStr), ("cpuUsage", .num p.cpuUsage),
    ("memoryUsage", .num p.memoryUsage), ("activeJobs", .num p.activeJobs)]

def encHeartbeatAck (p : HeartbeatAckPayload) : Json :=
  Json.obj [("received", .bool p.received)]

def encJobAssign (p : JobAssignPayload) : Json :=
  Json.obj ([("jobId", .str p.jobId), ("agentId", .str p.agentId), ("runId", .str p.runId),
    ("input", p.input)] ++ optField "timeout" (p.timeout.map Json.num))

def encJobError (e : JobError) : Json :=
  Json.obj ([("code", .str e.code), ("message", .str e.message)]
    ++ optField "stack" (e.stack.map Json.str))

def encJobMetrics (m : JobMetrics) : Json :=
  Json.obj [("startTime", .num m.startTime), ("endTime", .num m.endTime),
    ("durationMs", .num m.durationMs)]

def encJobResult (p : JobResultPayload) : Json :=
  Json.obj ([("jobId", .str p.jobId), ("runId", .str p.runId), ("status", .str p.status.toStr)]
    ++ optField "output" p.output
    ++ [("logs", encStrList p.logs)]
    ++ optField "error" (p.error.map encJobError)
    ++ [("metrics", encJobMetrics p.metrics)])

def encChatTurn (t : ChatTurn) : Json :=
  Json.obj [("role", .str t.role), ("content", .str t.content)]

def encAgentContext (c : AgentContext) : Json :=
  Json.obj (optField "conversationId" (c.conversationId.map Json.str)
    ++ optField "previousMessages" (c.previousMessages.map fun l => Json.arr (l.map encChatTurn))
    ++ optField "userData" (c.userData.map Json.obj))

def encAgentJob (p : AgentJobPayload) : Json :=
  Json.obj ([("jobId", .str p.jobId), ("agentType", .str p.agentType),
    ("userQuery", .str p.userQuery)] ++ optField "context" (p.context.map encAgentContext))

def encToolUse (t : ToolUse) : Json :=
  Json.obj [("name", .str t.name), ("params", t.params), ("result", t.result)]

def encAgentJobMetrics (m : AgentJobMetrics) : Json :=
  Json.obj (optField "llmTokensUsed" (m.llmTokensUsed.map Json.num)
    ++ [("executionTimeMs", .num m.executionTimeMs)])

def encAgentJobError (e : AgentJobError) : Json :=
  Json.obj [("code", .str e.code), ("message", .str e.message)]

def encAgentJobResult (p : AgentJobResultPayload) : Json :=
  Json.obj ([("jobId", .str p.jobId), ("success", .bool p.success),
    ("response", .str p.response)]
    ++ optField "toolsUsed" (p.toolsUsed.map fun l => Json.arr (l.map encToolUse))
    ++ optField "metrics" (p.metrics.map encAgentJobMetrics)
    ++ optField "error" (p.error.map encAgentJobError))

def encError (p : ErrorPayload) : Json :=
  Json.obj [("code", .str p.code), ("message", .str p.message), ("fatal", .bool p.fatal)]

/-- Payload encoding of a frame, variant by variant. -/
def TerminusMessage.encPayload : TerminusMessage → Json
  | .auth _ p => encAuth p
  | .authAck _ p => encAuthAck p
  | .heartbeat _ p => encHeartbeat p
  | .heartbeatAck _ p => encHeartbeatAck p
  | .jobAssign _ p => encJobAssign p
  | .jobResult _ p => encJobResult p
  | .agentJob _ p => encAgentJob p
  | .agentJobResult _ p => encAgentJobResult p
  | .error _ p => encError p

/-- `serializeMessage` from `utils.ts` (`JSON.stringify`), modelled as the JSON
tree it produces: the fields `type`, `traceId`, `timestamp` of the base message
followed by the variant's `payload`. -/
def serializeMessage (m : TerminusMessage) : Json :=
  Json.obj [("type", .str m.msgType), ("traceId", .str m.base.traceId),
    ("timestamp", .num m.base.timestamp), ("payload", m.encPayload)]

/-! Structural decoder. This is **not** part of the embedded code (the TS
`parseMessage` merely casts); it is a proof device: a retraction of
`serializeMessage`, used to establish that serialization is injective. -/

def asStr : Json → Option String
  | .str s => some s
  | _ => none

def asNum : Json → Option ℚ
  | .num q => some q
  | _ => none

def asBool : Json → Option Bool
  | .bool b => some b
  | _ => none

def asObjFields : Json → Option (List (String × Json))
  | .obj l => some l
  | _ => none

def decStrs : List Json → Option (List String)
  | [] => some []
  | .str s :: t => (decStrs t).map (s :: ·)
  | _ => none

def asStrList : Json → Option (List String)
  | .arr xs => decStrs xs
  | _ => none

/-- Decode an optional field: absent is fine, present must decode. -/
def decOpt {α : Type} (j : Json) (name : String) (f : Json → Option α) :
    Option (Option α) :=
  match getField j name with
  | none => some none
  | some v => (f v).map some

def req {α : Type} (j : Json) (name : String) (f : Json → Option α) : Option α :=
  (getField j name).bind f

def decStatus : Json → Option NodeStatus
  | .str "IDLE" => some .IDLE
  | .str "BUSY" => some .BUSY
  | .str "DRAINING" => some .DRAINING
  | _ => none

def decJobStatus : Json → Option JobResultStatus
  | .str "SUCCESS" => some .SUCCESS
  | .str "ERROR" => some .ERROR
  | .str "TIMEOUT" => some .TIMEOUT
  | _ => none

def decSpecs (j : Json) : Option MachineSpecs := do
  let os ← req j "os" asStr
  let arch ← req j "arch" asStr
  let cpuCores ← req j "cpuCores" asNum
  let totalMemoryGB ← req j "totalMemoryGB" asNum
  let nodeVersion ← req j "nodeVersion" asStr
  pure ⟨os, arch, cpuCores, totalMemoryGB, nodeVersion⟩

def decAuth (j : Json) : Option AuthPayload := do
  let nodeId ← req j "nodeId" asStr
  let capabilities ← req j "capabilities" asStrList
  let agentTypes ← decOpt j "agentTypes" asStrList
  let wallet ← decOpt j "wallet" asStr
  let specs ← req j "specs" decSpecs
  let secret ← req j "secret" asStr
  let version ← req j "version" asStr
  pure ⟨nodeId, capabilities, agentTypes, wallet, specs, secret, version⟩

def decAuthAck (j : Json) : Option AuthAckPayload := do
  let success ← req j "success" asBool
  let message ← decOpt j "message" asStr
  let heartbeatInterval ← decOpt j "heartbeatInterval" asNum
  pure ⟨success, message, heartbeatInterval⟩

def decHeartbeat (j : Json) : Option HeartbeatPayload := do
  let status ← req j "status" decStatus
  let cpuUsage ← req j "cpuUsage" asNum
  let memoryUsage ← req j "memoryUsage" asNum
  let activeJobs ← req j "activeJobs" asNum
  pure ⟨status, cpuUsage, memoryUsage, activeJobs⟩

def decHeartbeatAck (j : Json) : Option HeartbeatAckPayload := do
  let received ← req j "received" asBool
  pure ⟨received⟩

def decJobAssign (j : Json) : Option JobAssignPayload := do
  let jobId ← req j "jobId" asStr
  let agentId ← req j "agentId" asStr
  let runId ← req j "runId" asStr
  let input ← getField j "input"
  let timeout ← decOpt j "timeout" asNum
  pure ⟨jobId, agentId, runId, input, timeout⟩

def decJobError (j : Json) : Option JobError := do
  let code ← req j "code" asStr
  let message ← req j "message" asStr
  let stack ← decOpt j "stack" asStr
  pure ⟨code, message, stack⟩

def decJobMetrics (j : Json) : Option JobMetrics := do
  let startTime ← req j "startTime" asNum
  let endTime ← req j "endTime" asNum
  let durationMs ← req j "durationMs" asNum
  pure ⟨startTime, endTime, durationMs⟩

def decJobResult (j : Json) : Option JobResultPayload := do
  let jobId ← req j "jobId" asStr
  let runId ← req j "runId" asStr
  let status ← req j "status" decJobStatus
  let output ← decOpt j "output" some
  let logs ← req j "logs" asStrList
  let error ← decOpt j "error" decJobError
  let metrics ← req j "metrics" decJobMetrics
  pure ⟨jobId, runId, status, output, logs, error, metrics⟩

def decChatTurn (j : Json) : Option ChatTurn := do
  let role ← req j "role" asStr
  let content ← req j "content" asStr
  pure ⟨role, content⟩

def decTurns : List Json → Option (List ChatTurn)
  | [] => some []
  | j :: t => do
      let turn ← decChatTurn j
      let rest ← decTurns t
      pure (turn :: rest)

def decAgentContext (j : Json) : Option AgentContext := do
  let conversationId ← decOpt j "conversationId" asStr
  let previousMessages ← decOpt j "previousMessages" fun v =>
    match v with
    | .arr xs => decTurns xs
    | _ => none
  let userData ← decOpt j "userData" asObjFields
  pure ⟨conversationId, previousMessages, userData⟩

def decAgentJob (j : Json) : Option AgentJobPayload := do
  let jobId ← req j "jobId" asStr
  let agentType ← req j "agentType" asStr
  let userQuery ← req j "userQuery" asStr
  let context ← decOpt j "context" decAgentContext
  pure ⟨jobId, agentType, userQuery, context⟩

def decToolUse (j : Json) : Option ToolUse := do
  let name ← req j "name" asStr
  let params ← getField j "params"
  let result ← getField j "result"
  pure ⟨name, params, result⟩

def decTools : List Json → Option (List ToolUse)
  | [] => some []
  | j :: t => do
      let tool ← decToolUse j
      let rest ← decTools t
      pure (tool :: rest)

def decAgentJobMetrics (j : Json) : Option AgentJobMetrics := do
  let llmTokensUsed ← decOpt j "llmTokensUsed" asNum
  let executionTimeMs ← req j "executionTimeMs" asNum
  pure ⟨llmTokensUsed, executionTimeMs⟩

def decAgentJobError (j : Json) : Option AgentJobError := do
  let code ← req j "code" asStr
  let message ← req j "message" asStr
  pure ⟨code, message⟩

def decAgentJobResult (j : Json) : Option AgentJobResultPayload := do
  let jobId ← req j "jobId" asStr
  let success ← req j "success" asBool
  let response ← req j "response" asStr
  let toolsUsed ← decOpt j "toolsUsed" fun v =>
    match v with
    | .arr xs => decTools xs
    | _ => none
  let metrics ← decOpt j "metrics" decAgentJobMetrics
  let error ← decOpt j "error" decAgentJobError
  pure ⟨jobId, success, response, toolsUsed, metrics, error⟩

def decError (j : Json) : Option ErrorPayload := do
  let code ← req j "code" asStr
  let message ← req j "message" asStr
  let fatal ← req j "fatal" asBool
  pure ⟨code, message, fatal⟩

/-- Retraction of `serializeMessage` (proof device for injectivity, not part of
the embedded code). -/
def decodeMessage : Json → Option TerminusMessage
  | .obj [("type", .str t), ("traceId", .str traceId), ("timestamp", .num ts),
      ("payload", pj)] =>
      let b : BaseFields := ⟨traceId, ts⟩
      if t = "AUTH" then (decAuth pj).map (.auth b)
      else if t = "AUTH_ACK" then (decAuthAck pj).map (.authAck b)
      else if t = "HEARTBEAT" then (decHeartbeat pj).map (.heartbeat b)
      else if t = "HEARTBEAT_ACK" then (decHeartbeatAck pj).map (.heartbeatAck b)
      else if t = "JOB_ASSIGN" then (decJobAssign pj).map (.jobAssign b)
      else if t = "JOB_RESULT" then (decJobResult pj).map (.jobResult b)
      else if t = "AGENT_JOB" then (decAgentJob pj).map (.agentJob b)
      else if t = "AGENT_JOB_RESULT" then (decAgentJobResult pj).map (.agentJobResult b)
      else if t = "ERROR" then (decError pj).map (.error b)
      else none
  | _ => none

/-! ## Balance ledger (`apps/control-plane/src/payment/user-balance.ts`)

USDC amounts are exact rationals, timestamps (`Date.now()`) are integers
passed in explicitly, the `userBalances` `Map` is an association list keyed by
the lowercased wallet, and the `processedDeposits` `Set` is a duplicate-free
list. The on-chain RPC provider (an external collaborator) is an oracle
`txHash ↦ Option Receipt`; a receipt's `transfers` are the logs already
filtered to the USDC contract address, `none` standing for a log that
`parseLog` cannot parse as a `Transfer` event. -/

/-- One entry of `depositHistory`. -/
structure DepositRecord where
  txHash : String
  amount : ℚ
  timestamp : ℤ
  confirmed : Bool
  deriving DecidableEq

/-- A per-wallet balance record (`UserBalance`). -/
structure UserBalance where
  wallet : String
  balance : ℚ
  totalDeposited : ℚ
  totalSpent : ℚ
  depositHistory : List DepositRecord
  lastActivity : ℤ
  deriving DecidableEq

/-- The in-memory ledger: `userBalances` map and `processedDeposits` set. -/
structure LedgerState where
  userBalances : List (String × UserBalance)
  processedDeposits : List String
  deriving DecidableEq

/-- Ledger at module load before any deposit (persistence files absent). -/
def emptyLedger : LedgerState := ⟨[], []⟩

/-- JS `Set.add`: append unless already present. -/
def setAdd (l : List String) (x : String) : List String :=
  if l.contains x then l else l ++ [x]

/-- `getUserBalance`. -/
def getUserBalance (s : LedgerState) (wallet : String) : Option UserBalance :=
  mget s.userBalances (strToLower wallet)

/-- `getOrCreateUserBalance`. -/
def getOrCreateUserBalance (s : LedgerState) (wallet : String) (now : ℤ) :
    LedgerState × UserBalance :=
  let normalized := (strToLower wallet)
  match mget s.userBalances normalized with
  | some user => (s, user)
  | none =>
      let user : UserBalance := ⟨normalized, 0, 0, 0, [], now⟩
      ({ s with userBalances := mset s.userBalances normalized user }, user)

/-- `hasEnoughBalance`. -/
def hasEnoughBalance (s : LedgerState) (wallet : String) (amount : ℚ) : Bool :=
  match getUserBalance s wallet with
  | none => false
  | some user => decide (amount ≤ user.balance)

/-- `deductBalance`: fail (leaving the state unchanged) when the wallet is
unknown or `balance < amount`; otherwise move `amount` from `balance` to
`totalSpent` and report success. -/
def deductBalance (s : LedgerState) (wallet : String) (amount : ℚ) (now : ℤ) :
    LedgerState × Bool :=
  match getUserBalance s wallet with
  | none => (s, false)
  | some user =>
      if user.balance < amount then (s, false)
      else
        let user' := { user with
          balance := user.balance - amount
          totalSpent := user.totalSpent + amount
          lastActivity := now }
        ({ s with userBalances := mset s.userBalances (strToLower wallet) user' }, true)

/-- `creditBalance`: create the record if needed, add `amount` to `balance`
and `totalDeposited`, and append a deposit-history entry when a transaction
hash is given. -/
def creditBalance (s : LedgerState) (wallet : String) (amount : ℚ)
    (txHash : Option String) (now : ℤ) : LedgerState :=
  let (s', user) := getOrCreateUserBalance s wallet now
  let history := match txHash with
    | some h => user.depositHistory ++ [⟨h, amount, now, true⟩]
    | none => user.depositHistory
  let user' := { user with
    balance := user.balance + amount
    totalDeposited := user.totalDeposited + amount
    lastActivity := now
    depositHistory := history }
  { s' with userBalances := mset s'.userBalances (strToLower wallet) user' }

/-- A parsed USDC `Transfer(from, to, value)` event; `value` is the uint256
token amount in micro-USDC. -/
structure TransferEvent where
  fromAddr : String
  toAddr : String
  value : ℕ
  deriving DecidableEq

/-- A transaction receipt as consumed by `verifyAndCreditDeposit`:
`status` (1 = confirmed) and the USDC-contract logs (`none` = unparseable). -/
structure Receipt where
  status : ℤ
  transfers : List (Option TransferEvent)

/-- The external RPC provider. -/
def Chain : Type := String → Option Receipt

/-- The payment configuration consumed by the ledger and the chat handler
(`payment/config.ts`). -/
structure PaymentConfig where
  enabled : Bool
  orchestratorWallet : String
  queryPriceUSDC : ℚ
  orchestratorShare : ℚ
  agentShare : ℚ
  deriving DecidableEq

/-- Result record of `verifyAndCreditDeposit`. -/
structure VerifyResult where
  success : Bool
  amount : Option ℚ
  error : Option String
  deriving DecidableEq

/-- The `for (const log of transferLogs)` loop: skip unparseable logs, and at
the first transfer whose recipient is the orchestrator wallet either reject a
sender mismatch or mark the hash processed, credit the sender, and succeed. -/
def processTransferLogs (cfg : PaymentConfig) (txHash expectedFromWallet : String)
    (now : ℤ) : LedgerState → List (Option TransferEvent) → LedgerState × VerifyResult
  | s, [] => (s, ⟨false, none, some "No valid USDC transfer to orchestrator found"⟩)
  | s, none :: rest => processTransferLogs cfg txHash expectedFromWallet now s rest
  | s, some ev :: rest =>
      if strToLower ev.toAddr = strToLower cfg.orchestratorWallet then
        if strToLower ev.fromAddr ≠ strToLower expectedFromWallet then
          (s, ⟨false, none, some "Sender wallet mismatch"⟩)
        else
          let amountUSDC : ℚ := (ev.value : ℚ) / 1000000
          let s' := { s with processedDeposits := setAdd s.processedDeposits txHash }
          (creditBalance s' expectedFromWallet amountUSDC (some txHash) now,
            ⟨true, some amountUSDC, none⟩)
      else processTransferLogs cfg txHash expectedFromWallet now s rest

/-- `verifyAndCreditDeposit`: reject an already-processed hash, then consult
the chain oracle, require a found and confirmed receipt, and scan its
transfer logs. -/
def verifyAndCreditDeposit (cfg : PaymentConfig) (chain : Chain) (s : LedgerState)
    (txHash expectedFromWallet : String) (now : ℤ) : LedgerState × VerifyResult :=
  if s.processedDeposits.contains txHash then
    (s, ⟨false, none, some "Deposit already processed"⟩)
  else
    match chain txHash with
    | none => (s, ⟨false, none, some "Transaction not found"⟩)
    | some receipt =>
        if receipt.status ≠ 1 then (s, ⟨false, none, some "Transaction failed"⟩)
        else processTransferLogs cfg txHash expectedFromWallet now s receipt.transfers

/-- One call into the ledger module, for sequences of ledger operations. -/
inductive LedgerOp : Type
  | getOrCreate (wallet : String) (now : ℤ)
  | deduct (wallet : String) (amount : ℚ) (now : ℤ)
  | credit (wallet : String) (amount : ℚ) (txHash : Option String) (now : ℤ)
  | verifyDeposit (txHash expectedFromWallet : String) (now : ℤ)

/-- State effect of one ledger operation (return values dropped). -/
def applyLedgerOp (cfg : PaymentConfig) (chain : Chain) (s : LedgerState) :
    LedgerOp → LedgerState
  | .getOrCreate w now => (getOrCreateUserBalance s w now).1
  | .deduct w a now => (deductBalance s w a now).1
  | .credit w a tx now => creditBalance s w a tx now
  | .verifyDeposit tx w now => (verifyAndCreditDeposit cfg chain s tx w now).1

/-- State after a sequence of ledger operations. -/
def applyLedgerOps (cfg : PaymentConfig) (chain : Chain) (s : LedgerState)
    (ops : List LedgerOp) : LedgerState :=
  ops.foldl (applyLedgerOp cfg chain) s

/-- The amounts an operation passes to `creditBalance` are nonnegative; only
`credit` can carry a caller-chosen amount (a deposit credit is `value / 10^6`
for a uint256 `value` and is automatically nonnegative). -/
def LedgerOp.creditNonneg : LedgerOp → Prop
  | .credit _ a _ _ => 0 ≤ a
  | _ => True

/-- The claimed balance-sheet property of a single record:
`balance = totalDeposited − totalSpent` and `balance ≥ 0`. -/
def BalOk (u : UserBalance) : Prop :=
  u.balance = u.totalDeposited - u.totalSpent ∧ 0 ≤ u.balance

/-- The claimed balance-sheet invariant over the whole ledger. -/
def LedgerInv (s : LedgerState) : Prop :=
  ∀ kv ∈ s.userBalances, BalOk kv.2

/-! ## Ledger persistence (`atomicWriteJson` / `saveData`)

`saveData` runs after every successful deduct/credit. The claim is about the
sequence of file-system operations such a save performs, so that sequence is
the object of study; `content` abstracts `JSON.stringify(data, null, 2)`. -/

/-- A file-system operation. -/
inductive FsOp : Type
  | writeFile (path content : String)
  | rename (fromPath toPath : String)
  deriving DecidableEq

def FsOp.isRename : FsOp → Bool
  | .rename _ _ => true
  | _ => false

/-- The file-system operations performed by `atomicWriteJson(filePath, data)`:
a full write of the serialized data to `filePath + '.tmp'` followed by a
second full write directly to `filePath`. -/
def atomicWriteJson (filePath content : String) : List FsOp :=
  [.writeFile (filePath ++ ".tmp") content, .writeFile filePath content]

def BALANCES_FILE : String := "data/user-balances.json"

def DEPOSITS_FILE : String := "data/processed-deposits.json"

/-- The file-system operations performed by `saveData()`: persist both files
through `atomicWriteJson`. -/
def saveData (balancesContent depositsContent : String) : List FsOp :=
  atomicWriteJson BALANCES_FILE balancesContent
    ++ atomicWriteJson DEPOSITS_FILE depositsContent

/-- Modelled from the spec: the temp-then-rename write the specification
describes (`written via temp-then-rename`), for comparison with
`atomicWriteJson`. -/
def specTempThenRename (filePath content : String) : List FsOp :=
  [.writeFile (filePath ++ ".tmp") content, .rename (filePath ++ ".tmp") filePath]

/-! ## Job dispatcher (`dispatcher.ts`)

`pendingJobs` is a map `runId ↦ PendingJob` whose `resolve`/`reject` one-shot
channels are modelled by the outcome an event publishes. After a dispatch has
registered its pending entry, the event loop processes, in some order, the
deadline timer (which always fires — it is never cancelled — but only acts
when the entry is still present) and any number of inbound `JOB_RESULT`
frames. -/

/-- A `pendingJobs` entry. -/
structure PendingJob where
  jobId : String
  runId : String
  nodeId : String
  agentId : String
  deriving DecidableEq

/-- The dispatcher's correlation state. -/
def PendingMap : Type := List (String × PendingJob)

/-- The outcome published to the waiting caller. -/
inductive JobOutcome : Type
  | result (payload : JobResultPayload)
  | timeout

/-- An event-loop turn relevant to a dispatched run: the deadline timer
firing, or an inbound `JOB_RESULT` frame. -/
inductive DispatchEvent : Type
  | deadlineFires (runId : String)
  | jobResultArrives (payload : JobResultPayload)

/-- The runId an event concerns. -/
def targetOf : DispatchEvent → String
  | .deadlineFires r => r
  | .jobResultArrives pl => pl.runId

/-- One event-loop turn: the timer callback deletes the entry and rejects with
a timeout only if the entry still exists; `handleJobResult` looks up by
`runId`, discards a late or unknown reply without touching the map, and
otherwise deletes the entry and resolves with the payload. -/
def stepDispatch (pending : PendingMap) :
    DispatchEvent → PendingMap × Option (String × JobOutcome)
  | .deadlineFires r =>
      if containsKey pending r then (mdel pending r, some (r, .timeout))
      else (pending, none)
  | .jobResultArrives pl =>
      match mget pending pl.runId with
      | none => (pending, none)
      | some _ => (mdel pending pl.runId, some (pl.runId, .result pl))

/-- Process a whole interleaving of events, collecting published outcomes. -/
def runDispatch : PendingMap → List DispatchEvent → PendingMap × List (String × JobOutcome)
  | s, [] => (s, [])
  | s, e :: evs =>
      let (s', o) := stepDispatch s e
      let (s'', os) := runDispatch s' evs
      (s'', o.toList ++ os)

/-- The outcomes published for one runId. -/
def outcomesFor (r : String) (l : List (String × JobOutcome)) :
    List (String × JobOutcome) :=
  l.filter (fun x => x.1 == r)

/-! ## Job queue with retry and dead-letter (`job-queue.ts`) -/

/-- A queued job (`QueuedJob`). -/
structure QueuedJob where
  jobId : String
  runId : String
  agentId : String
  input : Json
  timeout : ℤ
  retryCount : ℕ
  maxRetries : ℕ
  createdAt : ℤ
  requiredCapabilities : List String

/-- Lifecycle status of a job record. -/
inductive JobStatus : Type
  | PENDING | RUNNING | SUCCESS | FAILED | TIMEOUT | DEAD
  deriving DecidableEq

/-- A tracked job record (`JobRecord`). -/
structure JobRecord where
  job : QueuedJob
  status : JobStatus
  nodeId : Option String
  startedAt : Option ℤ
  completedAt : Option ℤ
  result : Option Json
  error : Option String

/-- The queue module's state: pending FIFO, running map, completed map,
dead-letter list. -/
structure QueueState where
  pendingQueue : List QueuedJob
  runningJobs : List (String × JobRecord)
  completedJobs : List (String × JobRecord)
  deadLetterQueue : List JobRecord

/-- The queue state at module load. -/
def emptyQueue : QueueState := ⟨[], [], [], []⟩

def DEFAULT_MAX_RETRIES : ℕ := 3

/-- The caller-supplied part of a job
(`Omit<QueuedJob, 'retryCount' | 'maxRetries' | 'createdAt'>`). -/
structure NewJob where
  jobId : String
  runId : String
  agentId : String
  input : Json
  timeout : ℤ
  requiredCapabilities : List String

/-- `enqueue`: complete the job with `retryCount = 0`,
`maxRetries = DEFAULT_MAX_RETRIES`, `createdAt = now` and append it to the
pending queue. -/
def enqueue (s : QueueState) (job : NewJob) (now : ℤ) : QueueState × QueuedJob :=
  let queuedJob : QueuedJob := ⟨job.jobId, job.runId, job.agentId, job.input,
    job.timeout, 0, DEFAULT_MAX_RETRIES, now, job.requiredCapabilities⟩
  ({ s with pendingQueue := s.pendingQueue ++ [queuedJob] }, queuedJob)

/-- Remove the first list element satisfying the test (the
`findIndex` + `splice` pair in `dequeue`). -/
def extractFirst (p : QueuedJob → Bool) : List QueuedJob → Option QueuedJob × List QueuedJob
  | [] => (none, [])
  | j :: t =>
      if p j then (some j, t)
      else
        let (r, t') := extractFirst p t
        (r, j :: t')

/-- `dequeue(capabilities)`: remove and return the first pending job whose
required capabilities are all offered. -/
def dequeue (s : QueueState) (capabilities : List String) :
    QueueState × Option QueuedJob :=
  let (found, rest) := extractFirst
    (fun job => job.requiredCapabilities.all (fun cap => capabilities.contains cap))
    s.pendingQueue
  ({ s with pendingQueue := rest }, found)

/-- `markRunning(job, nodeId)`: store a RUNNING record keyed by the job's
runId with `startedAt = now`. -/
def markRunning (s : QueueState) (job : QueuedJob) (nodeId : String) (now : ℤ) :
    QueueState :=
  let record : JobRecord := ⟨job, .RUNNING, some nodeId, some now, none, none, none⟩
  { s with runningJobs := mset s.runningJobs job.runId record }

/-- `markComplete(runId, success, result?, error?)`: move the running record,
if any, to the completed map. -/
def markComplete (s : QueueState) (runId : String) (success : Bool)
    (result : Option Json) (error : Option String) (now : ℤ) : QueueState :=
  match mget s.runningJobs runId with
  | none => s
  | some record =>
      let record' := { record with
        status := if success then JobStatus.SUCCESS else JobStatus.FAILED
        completedAt := some now
        result := result
        error := error }
      { s with
        runningJobs := mdel s.runningJobs runId
        completedJobs := mset s.completedJobs runId record' }

/-- `markTimeout(runId)`: drop the running record (no-op when absent),
increment the job's `retryCount` and either dead-letter the record (when
`retryCount >= maxRetries`) with the descriptive error, or requeue the job at
the tail of pending. -/
def markTimeout (s : QueueState) (runId : String) : QueueState :=
  match mget s.runningJobs runId with
  | none => s
  | some record =>
      let job := { record.job with retryCount := record.job.retryCount + 1 }
      let s' := { s with runningJobs := mdel s.runningJobs runId }
      if job.maxRetries ≤ job.retryCount then
        { s' with deadLetterQueue := s'.deadLetterQueue ++ [{ record with
            job := job
            status := JobStatus.DEAD
            error := some ("Exceeded max retries (" ++ toString job.maxRetries ++ ")") }] }
      else
        { s' with pendingQueue := s'.pendingQueue ++ [job] }

/-- `checkTimeouts`: collect every running runId whose elapsed time exceeds
its timeout (`startedAt ?? now`), then time each of them out. -/
def checkTimeouts (s : QueueState) (now : ℤ) : QueueState × List String :=
  let timedOut := (s.runningJobs.filter
    (fun kv => decide (kv.2.job.timeout < now - (kv.2.startedAt.getD now)))).map Prod.fst
  (timedOut.foldl markTimeout s, timedOut)

/-! ### Disciplined queue usage

The queue's callers follow the protocol the spec describes: a job enters via
`enqueue` under a fresh `runId`, is checked out by `dequeue`, and each
checked-out job is handed to `markRunning` exactly once. The relation below
captures exactly those call sequences; `checkedOut` holds the jobs returned by
`dequeue` and not yet marked running. -/

/-- Queue state together with the dequeued-but-not-yet-running jobs. -/
structure GQueueState where
  q : QueueState
  checkedOut : List QueuedJob

/-- Every runId tracked anywhere in the queue module or held by a caller. -/
def allRunIds (g : GQueueState) : List String :=
  g.q.pendingQueue.map (fun j => j.runId)
    ++ g.checkedOut.map (fun j => j.runId)
    ++ g.q.runningJobs.map Prod.fst
    ++ g.q.completedJobs.map Prod.fst
    ++ g.q.deadLetterQueue.map (fun rec => rec.job.runId)

/-- One disciplined queue call. -/
inductive QueueStep : GQueueState → GQueueState → Prop
  | enqueue (g : GQueueState) (job : NewJob) (now : ℤ)
      (fresh : job.runId ∉ allRunIds g) :
      QueueStep g ⟨(Terminus.enqueue g.q job now).1, g.checkedOut⟩
  | dequeue (g : GQueueState) (capabilities : List String) :
      QueueStep g ⟨(Terminus.dequeue g.q capabilities).1,
        (Terminus.dequeue g.q capabilities).2.toList ++ g.checkedOut⟩
  | markRunning (g : GQueueState) (job : QueuedJob) (nodeId : String) (now : ℤ)
      (checkedOut : job ∈ g.checkedOut) :
      QueueStep g ⟨Terminus.markRunning g.q job nodeId now,
        g.checkedOut.eraseP (fun j => j.runId == job.runId)⟩
  | markComplete (g : GQueueState) (runId : String) (success : Bool)
      (result : Option Json) (error : Option String) (now : ℤ) :
      QueueStep g ⟨Terminus.markComplete g.q runId success result error now, g.checkedOut⟩
  | markTimeout (g : GQueueState) (runId : String) :
      QueueStep g ⟨Terminus.markTimeout g.q runId, g.checkedOut⟩
  | checkTimeouts (g : GQueueState) (now : ℤ) :
      QueueStep g ⟨(Terminus.checkTimeouts g.q now).1, g.checkedOut⟩

/-- States reachable from the empty queue by disciplined call sequences. -/
def QueueReachable (g : GQueueState) : Prop :=
  Relation.ReflTransGen QueueStep ⟨emptyQueue, []⟩ g

/-- A job still in flight: its retries are not exhausted and its
`maxRetries` is the enqueue-time default `3`. -/
def LiveOk (j : QueuedJob) : Prop :=
  j.retryCount < j.maxRetries ∧ j.maxRetries = 3

/-- A dead-lettered record: exactly `maxRetries = 3` timeouts were counted. -/
def DeadOk (rec : JobRecord) : Prop :=
  rec.job.retryCount = rec.job.maxRetries ∧ rec.job.maxRetries = 3

/-- The inductive invariant of the disciplined queue. -/
structure QueueInv (g : GQueueState) : Prop where
  nodup : (allRunIds g).Nodup
  runKey : ∀ kv ∈ g.q.runningJobs, kv.2.job.runId = kv.1
  liveP : ∀ j ∈ g.q.pendingQueue, LiveOk j
  liveC : ∀ j ∈ g.checkedOut, LiveOk j
  liveR : ∀ kv ∈ g.q.runningJobs, LiveOk kv.2.job
  dead : ∀ rec ∈ g.q.deadLetterQueue, DeadOk rec

/-- Is the runId in the pending queue? -/
def inPending (q : QueueState) (r : String) : Bool :=
  q.pendingQueue.any (fun j => j.runId == r)

/-- Is the runId in the running map? -/
def inRunning (q : QueueState) (r : String) : Bool :=
  containsKey q.runningJobs r

/-- Is the runId in the completed map? -/
def inCompleted (q : QueueState) (r : String) : Bool :=
  containsKey q.completedJobs r

/-- Is the runId in the dead-letter list? -/
def inDeadLetter (q : QueueState) (r : String) : Bool :=
  q.deadLetterQueue.any (fun rec => rec.job.runId == r)

/-- Demo job used by the concrete queue traces. -/
def demoNewJob : NewJob := ⟨"job-1", "run-1", "agent-a", Json.null, 500, []⟩

/-- `demoNewJob` as completed by `enqueue` at time `0`. -/
def demoQueuedJob : QueuedJob := ⟨"job-1", "run-1", "agent-a", Json.null, 500, 0, 3, 0, []⟩

/-- The record `markRunning` creates for `demoQueuedJob` on `node-1` at `1`. -/
def demoRecord : JobRecord :=
  ⟨demoQueuedJob, .RUNNING, some "node-1", some 1, none, none, none⟩

/-- A queue state with one running demo job. -/
def demoRunningState : QueueState := ⟨[], [("run-1", demoRecord)], [], []⟩

/-! ## Orchestrator intent selection (`orchestrator.ts`)

The LLM intent planner is an external collaborator; its observable outcome is
either a failure / a reply without a JSON object (both fall back to keyword
selection) or a parsed `{agents, reasoning}` object. Only the `id` and
`keywords` fields of the agent catalogue are consumed here; the prompts and
tool tables of `agents-registry.ts` are elided. -/

/-- An agent catalogue entry (id and keyword list). -/
structure AgentDefinition where
  id : String
  keywords : List String

/-- JS `String.prototype.includes` on char lists: does `needle` occur
contiguously in `hay`? -/
def leadsWith : List Char → List Char → Bool
  | [], _ => true
  | _ :: _, [] => false
  | c :: cs, d :: ds => c = d && leadsWith cs ds

def containsSeq : List Char → List Char → Bool
  | needle, [] => needle.isEmpty
  | needle, c :: t => leadsWith needle (c :: t) || containsSeq needle t

def strIncludes (hay needle : String) : Bool :=
  containsSeq needle.data hay.data

/-- JS `String.prototype.startsWith`. -/
def strStartsWith (s p : String) : Bool :=
  leadsWith p.data s.data

/-- The 15-agent catalogue `AGENTS` (ids and keywords from the agent files). -/
def AGENTS : List AgentDefinition := [
  ⟨"travel-planner", ["travel", "trip", "flight", "hotel", "vacation", "holiday",
    "tourism", "destination", "seyahat", "uçuş", "otel", "tatil"]⟩,
  ⟨"budget-planner", ["budget", "cheap", "affordable", "cost", "price", "deal",
    "discount", "save", "money", "ucuz", "uygun fiyat", "bütçe", "para"]⟩,
  ⟨"health-advisor", ["health", "doctor", "hospital", "medical", "symptom",
    "medicine", "pharmacy", "sick", "illness", "sağlık", "doktor", "hastane",
    "ilaç", "hasta"]⟩,
  ⟨"fundamental-analyst", ["stock", "earnings", "revenue", "valuation", "company",
    "fundamental", "financial", "invest", "hisse", "şirket", "yatırım", "bilanço"]⟩,
  ⟨"technical-analyst", ["chart", "technical", "pattern", "indicator", "trend",
    "resistance", "support", "RSI", "MACD", "grafik", "teknik"]⟩,
  ⟨"crypto-advisor", ["crypto", "bitcoin", "ethereum", "token", "blockchain",
    "defi", "nft", "coin", "kripto", "bitcoin", "altcoin"]⟩,
  ⟨"food-expert", ["food", "restaurant", "recipe", "cook", "eat", "cuisine",
    "delivery", "meal", "yemek", "restoran", "tarif", "mutfak"]⟩,
  ⟨"fitness-coach", ["fitness", "workout", "exercise", "gym", "weight", "muscle",
    "cardio", "training", "spor", "egzersiz", "antrenman", "kilo"]⟩,
  ⟨"legal-advisor", ["legal", "law", "lawyer", "attorney", "contract", "court",
    "rights", "sue", "hukuk", "avukat", "dava", "sözleşme"]⟩,
  ⟨"real-estate", ["property", "house", "apartment", "rent", "buy", "real estate",
    "mortgage", "ev", "daire", "kira", "emlak", "satılık"]⟩,
  ⟨"career-coach", ["job", "career", "resume", "interview", "salary", "hire",
    "work", "profession", "iş", "kariyer", "özgeçmiş", "maaş", "mülakat"]⟩,
  ⟨"event-planner", ["event", "party", "wedding", "venue", "conference",
    "meeting", "celebration", "etkinlik", "düğün", "parti", "mekan", "toplantı"]⟩,
  ⟨"tech-support", ["tech", "computer", "software", "bug", "error", "fix",
    "install", "problem", "issue", "bilgisayar", "hata", "sorun", "teknik"]⟩,
  ⟨"shopping-assistant", ["shop", "buy", "product", "amazon", "online",
    "purchase", "order", "sale", "alışveriş", "ürün", "satın", "kampanya"]⟩,
  ⟨"language-tutor", ["language", "translate", "english", "spanish", "learn",
    "grammar", "vocabulary", "dil", "çeviri", "ingilizce", "öğren"]⟩]

/-- Result of the intent phase (`IntentAnalysis`). -/
structure IntentAnalysis where
  userMessage : String
  selectedAgents : List String
  reasoning : String
  deriving DecidableEq

/-- Does some keyword of the agent occur in the lowercased message? (the inner
`for`/`break` loop of `keywordBasedSelection`). -/
def agentMatches (lowerMessage : String) (agent : AgentDefinition) : Bool :=
  agent.keywords.any (fun keyword => strIncludes lowerMessage (strToLower keyword))

/-- The selection loop over the catalogue, deduplicating by agent id. -/
def selectByKeywords (lowerMessage : String) : List AgentDefinition → List String → List String
  | [], selected => selected
  | agent :: rest, selected =>
      if agentMatches lowerMessage agent && !selected.contains agent.id then
        selectByKeywords lowerMessage rest (selected ++ [agent.id])
      else
        selectByKeywords lowerMessage rest selected

/-- `keywordBasedSelection`: keyword-match against the catalogue, default to
`travel-planner` when nothing matched, and cap the result at three agents. -/
def keywordBasedSelection (message : String) : IntentAnalysis :=
  let selected := selectByKeywords (strToLower message) AGENTS []
  let selected := if selected.isEmpty then ["travel-planner"] else selected
  ⟨message, selected.take 3, "Keyword-based selection"⟩

/-- Observable outcome of the LLM intent call in `analyzeIntent`: the call
threw, or its text contained no JSON object (both fall through to the keyword
fallback), or a JSON object parsed with `agents` and `reasoning` fields. -/
inductive PlannerOutcome : Type
  | failed
  | noJsonMatch
  | parsed (agents : List String) (reasoning : String)

/-- `analyzeIntent`: on a parsed planner reply, return its agent list as-is;
otherwise fall back to keyword selection. -/
def analyzeIntent (userMessage : String) : PlannerOutcome → IntentAnalysis
  | .parsed agents reasoning => ⟨userMessage, agents, reasoning⟩
  | _ => keywordBasedSelection userMessage

/-! ## Chat handler (`http.ts` `handleChat`) and payment distribution

The orchestrator run (`executeMultiAgent`) is LLM-driven; the handler's
behaviour is a function of its returned `MultiAgentResponse`. A distribution
(`distributor.ts`, internal-ledger mode; the on-chain branch is an external
side effect) appends one record to the payment ledger. -/

/-- One agent's execution result; `toolCalls` are reduced to the tool names
(the only part the handler echoes). -/
structure AgentExecutionResult where
  agentId : String
  agentName : String
  toolNames : List String
  summary : String
  deriving DecidableEq

/-- `executeMultiAgent`'s response. -/
structure MultiAgentResponse where
  success : Bool
  userMessage : String
  agentsUsed : List String
  agentResults : List AgentExecutionResult
  finalResponse : String
  deriving DecidableEq

/-- A recorded payment distribution (amount fields; transactions elided). -/
structure PaymentDistribution where
  totalAmount : ℚ
  orchestratorAmount : ℚ
  agentPayments : List (String × ℚ)
  deriving DecidableEq

/-- `distributePayment` (internal-ledger branch): orchestrator share plus an
equal per-agent split of the agent share, appended to the payment ledger. -/
def distributePayment (cfg : PaymentConfig) (totalAmountUSDC : ℚ)
    (agentIds : List String) (ledger : List PaymentDistribution) :
    List PaymentDistribution × PaymentDistribution :=
  let orchestratorAmount := totalAmountUSDC * cfg.orchestratorShare
  let totalAgentAmount := totalAmountUSDC * cfg.agentShare
  let perAgentAmount := if agentIds.length > 0 then totalAgentAmount / agentIds.length else 0
  let distribution : PaymentDistribution :=
    ⟨totalAmountUSDC, orchestratorAmount, agentIds.map (fun id => (id, perAgentAmount))⟩
  (ledger ++ [distribution], distribution)

/-- The server-side state `handleChat` touches. -/
structure ChatState where
  ledger : LedgerState
  paymentLedger : List PaymentDistribution
  deriving DecidableEq

/-- The handler's observable reply (status code and whether it charged). -/
structure ChatReply where
  status : ℕ
  charged : Bool
  deriving DecidableEq

/-- `handleChat` for a POST with body `message` and header wallet
`userWallet` (the empty string when the header is missing), given the
orchestrator's response: balance pre-check (402 without deducting), then
charge — `deductBalance` and, on its success, `distributePayment` — exactly
when the response reports success with a nonempty `agentResults`. -/
def handleChat (cfg : PaymentConfig) (st : ChatState) (userWallet : String)
    (message : Option String) (orchestrated : MultiAgentResponse) (now : ℤ) :
    ChatState × ChatReply :=
  match message with
  | none => (st, ⟨400, false⟩)
  | some _ =>
      if cfg.enabled && userWallet == "" then (st, ⟨400, false⟩)
      else if cfg.enabled &&
          !(match getUserBalance st.ledger userWallet with
            | none => false
            | some balance => decide (cfg.queryPriceUSDC ≤ balance.balance)) then
        (st, ⟨402, false⟩)
      else if !orchestrated.success || orchestrated.agentResults.isEmpty then
        (st, ⟨200, false⟩)
      else if cfg.enabled && userWallet != "" then
        let (ledger', deducted) := deductBalance st.ledger userWallet cfg.queryPriceUSDC now
        if deducted then
          let (payLedger', _) :=
            distributePayment cfg cfg.queryPriceUSDC orchestrated.agentsUsed st.paymentLedger
          (⟨ledger', payLedger'⟩, ⟨200, true⟩)
        else (⟨ledger', st.paymentLedger⟩, ⟨200, false⟩)
      else (st, ⟨200, false⟩)

/-! ## Helper lemmas: association-list maps -/

theorem mget_mem {α : Type} {l : List (String × α)} {k : String} {v : α}
    (h : mget l k = some v) : (k, v) ∈ l := by
  induction l with
  | nil => simp [mget] at h
  | cons hd t ih =>
      obtain ⟨k', v'⟩ := hd
      by_cases hk : k' = k
      · subst hk
        simp [mget] at h
        simp [h]
      · simp [mget, hk] at h
        exact List.mem_cons_of_mem _ (ih h)

theorem mem_mset {α : Type} {l : List (String × α)} {k : String} {v : α} {x : String × α}
    (h : x ∈ mset l k v) : x = (k, v) ∨ x ∈ l := by
  induction l with
  | nil => simpa [mset] using h
  | cons hd t ih =>
      obtain ⟨k', v'⟩ := hd
      by_cases hk : k' = k
      · subst hk
        simp [mset] at h
        rcases h with h | h
        · exact Or.inl h
        · exact Or.inr (List.mem_cons_of_mem _ h)
      · simp [mset, hk] at h
        rcases h with h | h
        · exact Or.inr (by simp [h])
        · rcases ih h with h' | h'
          · exact Or.inl h'
          · exact Or.inr (List.mem_cons_of_mem _ h')

theorem mget_mset_self {α : Type} (l : List (String × α)) (k : String) (v : α) :
    mget (mset l k v) k = some v := by
  induction l with
  | nil => simp [mget, mset]
  | cons hd t ih =>
      obtain ⟨k', v'⟩ := hd
      by_cases hk : k' = k
      · subst hk
        simp [mget, mset]
      · simp [mset, hk, mget, ih]

theorem mget_mset_ne {α : Type} (l : List (String × α)) {k k' : String} (v : α)
    (h : k' ≠ k) : mget (mset l k v) k' = mget l k' := by
  have h' : ¬(k = k') := fun hh => h hh.symm
  induction l with
  | nil => simp [mget, mset, h']
  | cons hd t ih =>
      obtain ⟨k₀, v₀⟩ := hd
      by_cases hk : k₀ = k
      · subst hk
        simp [mset, mget, h']
      · simp [mset, hk, mget, ih]

theorem mget_mdel_ne {α : Type} (l : List (String × α)) {k k' : String}
    (h : k' ≠ k) : mget (mdel l k) k' = mget l k' := by
  have h' : ¬(k = k') := fun hh => h hh.symm
  induction l with
  | nil => simp [mdel]
  | cons hd t ih =>
      obtain ⟨k₀, v₀⟩ := hd
      by_cases hk : k₀ = k
      · subst hk
        simp [mdel, mget, h']
      · simp [mdel, hk, mget, ih]

/-! ## Helper lemmas: protocol codec -/

theorem decStrs_map (l : List String) : decStrs (l.map Json.str) = some l := by
  induction l with
  | nil => rfl
  | cons h t ih => simp [decStrs, ih]

theorem decTurns_map (l : List ChatTurn) : decTurns (l.map encChatTurn) = some l := by
  induction l with
  | nil => rfl
  | cons h t ih => simp [decTurns, ih, decChatTurn, encChatTurn, req, getField, mget, asStr]

theorem decTools_map (l : List ToolUse) : decTools (l.map encToolUse) = some l := by
  induction l with
  | nil => rfl
  | cons h t ih => simp [decTools, ih, decToolUse, encToolUse, req, getField, mget, asStr]

theorem decAuth_enc (p : AuthPayload) : decAuth (encAuth p) = some p := by
  obtain ⟨n, caps, ats, w, specs, sec, v⟩ := p
  cases ats <;> cases w <;>
    simp [encAuth, encStrList, decAuth, req, decOpt, getField, mget, optField, asStr,
      asStrList, decStrs_map, decSpecs, encSpecs, asNum]

theorem decAuthAck_enc (p : AuthAckPayload) : decAuthAck (encAuthAck p) = some p := by
  obtain ⟨s, msg, hb⟩ := p
  cases msg <;> cases hb <;>
    simp [encAuthAck, decAuthAck, req, decOpt, getField, mget, optField, asStr, asBool, asNum]

theorem decHeartbeat_enc (p : HeartbeatPayload) : decHeartbeat (encHeartbeat p) = some p := by
  obtain ⟨st, c, mu, aj⟩ := p
  cases st <;>
    simp [encHeartbeat, decHeartbeat, req, getField, mget, asNum, decStatus, NodeStatus.toStr]

theorem decHeartbeatAck_enc (p : HeartbeatAckPayload) :
    decHeartbeatAck (encHeartbeatAck p) = some p := by
  obtain ⟨r⟩ := p
  simp [encHeartbeatAck, decHeartbeatAck, req, getField, mget, asBool]

theorem decJobAssign_enc (p : JobAssignPayload) : decJobAssign (encJobAssign p) = some p := by
  obtain ⟨jid, aid, rid, inp, to_⟩ := p
  cases to_ <;>
    simp [encJobAssign, decJobAssign, req, decOpt, getField, mget, optField, asStr, asNum]

theorem decJobResult_enc (p : JobResultPayload) : decJobResult (encJobResult p) = some p := by
  obtain ⟨jid, rid, st, out, logs, err, met⟩ := p
  cases st <;> cases out <;>
    rcases err with _ | ⟨ec, em, es⟩ <;> (try cases es) <;>
    simp [encJobResult, decJobResult, req, decOpt, getField, mget, optField, asStr, asNum,
      encStrList, asStrList, decStrs_map, decJobStatus, JobResultStatus.toStr, decJobError,
      decJobMetrics, encJobError, encJobMetrics]

theorem decAgentContext_enc (c : AgentContext) :
    decAgentContext (encAgentContext c) = some c := by
  obtain ⟨cid, pm, ud⟩ := c
  cases cid <;> cases pm <;> cases ud <;>
    simp [encAgentContext, decAgentContext, req, decOpt, getField, mget, optField, asStr,
      decTurns_map, asObjFields]

theorem decAgentJob_enc (p : AgentJobPayload) : decAgentJob (encAgentJob p) = some p := by
  obtain ⟨jid, at_, q, ctx⟩ := p
  cases ctx <;>
    simp [encAgentJob, decAgentJob, req, decOpt, getField, mget, optField, asStr,
      decAgentContext_enc]

theorem decAgentJobResult_enc (p : AgentJobResultPayload) :
    decAgentJobResult (encAgentJobResult p) = some p := by
  obtain ⟨jid, s, resp, tu, met, err⟩ := p
  cases tu <;> rcases met with _ | ⟨llm, ex⟩ <;> (try cases llm) <;> cases err <;>
    simp [encAgentJobResult, decAgentJobResult, req, decOpt, getField, mget, optField,
      asStr, asBool, asNum, decTools_map, decAgentJobMetrics, encAgentJobMetrics,
      decAgentJobError, encAgentJobError]

theorem decError_enc (p : ErrorPayload) : decError (encError p) = some p := by
  obtain ⟨c, msg, f⟩ := p
  simp [decError, encError, req, getField, mget, asStr, asBool]

theorem decode_serialize (m : TerminusMessage) :
    decodeMessage (serializeMessage m) = some m := by
  cases m <;>
    simp [serializeMessage, decodeMessage, TerminusMessage.encPayload,
      TerminusMessage.msgType, TerminusMessage.base, decAuth_enc, decAuthAck_enc,
      decHeartbeat_enc, decHeartbeatAck_enc, decJobAssign_enc, decJobResult_enc,
      decAgentJob_enc, decAgentJobResult_enc, decError_enc]

theorem serializeMessage_injective : Function.Injective serializeMessage := by
  intro m m' h
  have hm := decode_serialize m
  rw [h, decode_serialize m'] at hm
  exact (Option.some_injective _ hm).symm

theorem msgType_ne_empty (m : TerminusMessage) : m.msgType ≠ "" := by
  cases m <;> simp [TerminusMessage.msgType]

theorem getField_serialize_type (m : TerminusMessage) :
    getField (serializeMessage m) "type" = some (.str m.msgType) := by
  simp [serializeMessage, getField, mget]

theorem getField_serialize_traceId (m : TerminusMessage) :
    getField (serializeMessage m) "traceId" = some (.str m.base.traceId) := by
  simp [serializeMessage, getField, mget]

theorem getField_serialize_timestamp (m : TerminusMessage) :
    getField (serializeMessage m) "timestamp" = some (.num m.base.timestamp) := by
  simp [serializeMessage, getField, mget]

/-! ## Claim C10 -/

/-- C10: `parseMessage` is total (the `try`/`catch` makes every thrown JSON
decode yield `null`), returns `null` exactly when the JSON decode failed or
any of `type`, `traceId`, `timestamp` is absent or falsy — in particular it
rejects a recognized serialized frame whose `timestamp` is `0` or whose
`traceId` is the empty string — and performs no validation beyond those three
checks: every decoded value with three truthy fields is returned unchanged,
even with an unrecognized `type`. -/
theorem parseMessage_validation_only :
    parseMessage none = none
    ∧ (∀ j : Json,
        truthy (getField j "type") = false ∨ truthy (getField j "traceId") = false
          ∨ truthy (getField j "timestamp") = false →
        parseMessage (some j) = none)
    ∧ (∀ m : TerminusMessage, m.base.timestamp = 0 ∨ m.base.traceId = "" →
        parseMessage (some (serializeMessage m)) = none)
    ∧ (∀ j : Json,
        truthy (getField j "type") = true → truthy (getField j "traceId") = true →
        truthy (getField j "timestamp") = true → parseMessage (some j) = some j) := by
  refine ⟨rfl, ?_, ?_, ?_⟩
  · intro j h
    rcases h with h | h | h <;> simp [parseMessage, h]
  · intro m h
    rcases h with h | h
    · simp [parseMessage, getField_serialize_timestamp, truthy, h]
    · simp [parseMessage, getField_serialize_traceId, truthy, h]
  · intro j h1 h2 h3
    simp [parseMessage, h1, h2, h3]

/-- Witness for C10: a JSON object with an unrecognized `type` but truthy
common fields is accepted unchanged; an object lacking `type` is rejected; a
serialized `ERROR` frame with `timestamp = 0` is rejected. -/
theorem parseMessage_validation_only_witness :
    parseMessage (some (Json.obj [("type", .str "BOGUS"), ("traceId", .str "t"),
        ("timestamp", .num 5), ("extra", .bool true)]))
      = some (Json.obj [("type", .str "BOGUS"), ("traceId", .str "t"),
        ("timestamp", .num 5), ("extra", .bool true)])
    ∧ parseMessage (some (Json.obj [("traceId", .str "t"), ("timestamp", .num 5)])) = none
    ∧ parseMessage (some (serializeMessage
        (.error ⟨"trace-1", 0⟩ ⟨"E_TEST", "boom", false⟩))) = none :=
  ⟨parseMessage_validation_only.2.2.2 _ rfl rfl rfl,
    parseMessage_validation_only.2.1 _ (Or.inl rfl),
    parseMessage_validation_only.2.2.1 _ (Or.inl rfl)⟩

/-! ## Claim C9 -/

/-- C9 counterexample: the round-trip law fails as stated. The `ERROR` frame
with `traceId = "trace-1"` and `timestamp = 0` is a recognized frame with
field values its variant allows, yet `parseMessage (serializeMessage m)`
returns `null` (the truthiness check rejects `timestamp = 0`), not `m`. -/
theorem parse_serialize_not_total :
    parseMessage (some (serializeMessage
      (.error ⟨"trace-1", 0⟩ ⟨"E_TEST", "boom", false⟩))) = none := by
  rfl

/-- C9 (amended): for every recognized frame whose `traceId` is nonempty and
whose `timestamp` is nonzero, `parseMessage (serializeMessage m)` returns the
serialized frame unchanged, and serialization is injective, so the result is
deep-equal to `m` and to no other frame. -/
theorem parse_serialize_roundtrip :
    (∀ m : TerminusMessage, m.base.traceId ≠ "" → m.base.timestamp ≠ 0 →
      parseMessage (some (serializeMessage m)) = some (serializeMessage m))
    ∧ Function.Injective serializeMessage := by
  constructor
  · intro m h1 h2
    simp [parseMessage, getField_serialize_type, getField_serialize_traceId,
      getField_serialize_timestamp, truthy, h1, h2, msgType_ne_empty m]
  · exact serializeMessage_injective

/-- Witness for C9: the round-trip at a concrete `HEARTBEAT_ACK` frame. -/
theorem parse_serialize_roundtrip_witness :
    parseMessage (some (serializeMessage (.heartbeatAck ⟨"trace-2", 17⟩ ⟨true⟩)))
      = some (serializeMessage (.heartbeatAck ⟨"trace-2", 17⟩ ⟨true⟩)) :=
  parse_serialize_roundtrip.1 _ (by decide) (by decide)

/-! ## Claim C8 -/

/-- C8: the persistence write is **not** a temp-then-rename write. For every
target path and content, the operation sequence of `atomicWriteJson` differs
from the spec's temp-then-rename sequence: it contains no rename at all, and
its final operation is a second full write directly to the target file (so a
crash during that write can leave a torn target, and the temp file is dead
state). -/
theorem atomicWriteJson_is_not_atomic (filePath content : String) :
    atomicWriteJson filePath content ≠ specTempThenRename filePath content
    ∧ (atomicWriteJson filePath content).all (fun op => !op.isRename) = true
    ∧ (atomicWriteJson filePath content).getLast? = some (.writeFile filePath content) := by
  refine ⟨?_, rfl, rfl⟩
  simp [atomicWriteJson, specTempThenRename]

/-! ## Claim C7 -/

theorem selectByKeywords_no_match (lowerMessage : String) (agents : List AgentDefinition)
    (acc : List String) (h : agents.all (fun a => !agentMatches lowerMessage a) = true) :
    selectByKeywords lowerMessage agents acc = acc := by
  induction agents generalizing acc with
  | nil => rfl
  | cons a rest ih =>
      simp only [List.all_cons, Bool.and_eq_true, Bool.not_eq_true'] at h
      simp [selectByKeywords, h.1, ih acc (by simpa using h.2)]

/-- C7 counterexample: the planner path of `analyzeIntent` does not cap the
selection. When the intent planner's reply parses to a four-agent list, the
intent phase selects four agents, contradicting the claimed cap of three on
both paths (the cap is only applied on the keyword-fallback path). -/
theorem analyzeIntent_planner_uncapped :
    3 < (analyzeIntent "plan a cheap trip to Tokyo"
      (.parsed ["travel-planner", "budget-planner", "food-expert", "crypto-advisor"]
        "spans many domains")).selectedAgents.length := by
  decide

/-- C7 (amended): the keyword-fallback path selects at most three agents and,
when no agent's keywords intersect the message, defaults to the single agent
`travel-planner`; the planner path, however, returns the planner's agent list
unchanged, without enforcing the cap. -/
theorem intent_selection_cap :
    (∀ message : String, (keywordBasedSelection message).selectedAgents.length ≤ 3)
    ∧ (∀ message : String,
        AGENTS.all (fun a => !agentMatches (strToLower message) a) = true →
        (keywordBasedSelection message).selectedAgents = ["travel-planner"])
    ∧ (∀ (message reasoning : String) (agents : List String),
        (analyzeIntent message (.parsed agents reasoning)).selectedAgents = agents) := by
  refine ⟨?_, ?_, fun _ _ _ => rfl⟩
  · intro message
    simp only [keywordBasedSelection]
    exact (List.length_take 3 _).trans_le (min_le_left _ _)
  · intro message h
    simp [keywordBasedSelection, selectByKeywords_no_match _ _ _ h]

/-- Witness for C7 (amended): a message matching no keyword falls back to the
single default agent, and a multi-domain message stays within the cap. -/
theorem intent_selection_cap_witness :
    (keywordBasedSelection "qqq").selectedAgents = ["travel-planner"]
    ∧ (keywordBasedSelection "book a cheap flight and a hotel").selectedAgents.length ≤ 3 :=
  ⟨intent_selection_cap.2.1 "qqq" (by decide), intent_selection_cap.1 _⟩

/-! ## Claim C1 -/

/-- C1 counterexample: with payments enabled and a funded wallet, a query
whose *every* agent result has a summary beginning with `"Error: "` is still
charged: `handleChat` only checks `success` and a nonempty `agentResults`,
never the summaries. The balance drops from `1` to `9/10` and a distribution
record is appended, contradicting the claimed no-charge-on-failure behaviour.
(`success = true` with error-only results is exactly what `executeMultiAgent`
produces when every selected agent's execution throws.) -/
theorem chat_charges_on_all_error_results :
    let cfg : PaymentConfig := ⟨true, "0xorch", 1/10, 1/2, 1/2⟩
    let st : ChatState := ⟨⟨[("0xuser", ⟨"0xuser", 1, 1, 0, [], 0⟩)], []⟩, []⟩
    let orch : MultiAgentResponse := ⟨true, "plan a trip", ["travel-planner"],
      [⟨"travel-planner", "Travel Planner", [], "Error: planner unavailable"⟩],
      "Error: planner unavailable"⟩
    orch.agentResults.all (fun r => strStartsWith r.summary "Error: ") = true
    ∧ (handleChat cfg st "0xuser" (some "plan a trip") orch 5).2.charged = true
    ∧ (getUserBalance (handleChat cfg st "0xuser" (some "plan a trip") orch 5).1.ledger
        "0xuser").map (fun x => x.balance) = some (9/10)
    ∧ (handleChat cfg st "0xuser" (some "plan a trip") orch 5).1.paymentLedger.length
        = 1 := by
  have hlow : strToLower "0xuser" = "0xuser" := rfl
  have hne : ("0xuser" : String) ≠ "" := by decide
  refine ⟨rfl, ?_, ?_, ?_⟩ <;>
    norm_num [handleChat, getUserBalance, hlow, hne, mget, deductBalance, mset,
      distributePayment]

/-- C1 (amended): with payments enabled, a wallet header present and a
pre-checked sufficient balance, the chat handler performs the balance
deduction and payment distribution if and only if the orchestrator's response
has `success = true` and a nonempty `agentResults` — whether or not any
summary begins with `"Error: "`. In particular only queries with *zero* agent
results (or `success = false`) leave the balance unchanged and append no
distribution record. -/
theorem chat_charge_criterion (cfg : PaymentConfig) (st : ChatState)
    (w msg : String) (orch : MultiAgentResponse) (now : ℤ) (u : UserBalance)
    (hen : cfg.enabled = true) (hw : w ≠ "")
    (hu : getUserBalance st.ledger w = some u)
    (hbal : cfg.queryPriceUSDC ≤ u.balance) :
    ((handleChat cfg st w (some msg) orch now).2.charged = true
      ↔ orch.success = true ∧ orch.agentResults ≠ [])
    ∧ (orch.success = false ∨ orch.agentResults = [] →
        handleChat cfg st w (some msg) orch now = (st, ⟨200, false⟩))
    ∧ (orch.success = true → orch.agentResults ≠ [] →
        (handleChat cfg st w (some msg) orch now).1.paymentLedger
          = st.paymentLedger
            ++ [(distributePayment cfg cfg.queryPriceUSDC orch.agentsUsed
                st.paymentLedger).2]
        ∧ (getUserBalance (handleChat cfg st w (some msg) orch now).1.ledger w).map
            (fun x => x.balance) = some (u.balance - cfg.queryPriceUSDC)) := by
  have hw' : (w == "") = false := by simpa using hw
  have hbal' :
      (match getUserBalance st.ledger w with
        | none => false
        | some balance => decide (cfg.queryPriceUSDC ≤ balance.balance)) = true := by
    rw [hu]
    exact decide_eq_true hbal
  have hded : deductBalance st.ledger w cfg.queryPriceUSDC now =
      (⟨mset st.ledger.userBalances (strToLower w)
          ⟨u.wallet, u.balance - cfg.queryPriceUSDC, u.totalDeposited,
            u.totalSpent + cfg.queryPriceUSDC, u.depositHistory, now⟩,
        st.ledger.processedDeposits⟩, true) := by
    simp [deductBalance, hu, not_lt.mpr hbal]
  rcases Bool.eq_false_or_eq_true orch.success with hs | hs
  case inr =>
    have h1 : handleChat cfg st w (some msg) orch now = (st, ⟨200, false⟩) := by
      simp [handleChat, hen, hw', hbal', hs]
    refine ⟨?_, fun _ => h1, fun hcc => ?_⟩
    · rw [h1]
      simp [hs]
    · rw [hs] at hcc
      cases hcc
  case inl =>
    by_cases hres : orch.agentResults = []
    · have h1 : handleChat cfg st w (some msg) orch now = (st, ⟨200, false⟩) := by
        simp [handleChat, hen, hw', hbal', hs, hres]
      refine ⟨?_, fun _ => h1, fun _ hres' => absurd hres hres'⟩
      rw [h1]
      simp [hres]
    · have hne : orch.agentResults.isEmpty = false := by
        simpa [List.isEmpty_iff] using hres
      have h1 : handleChat cfg st w (some msg) orch now =
          (⟨⟨mset st.ledger.userBalances (strToLower w)
              ⟨u.wallet, u.balance - cfg.queryPriceUSDC, u.totalDeposited,
                u.totalSpent + cfg.queryPriceUSDC, u.depositHistory, now⟩,
            st.ledger.processedDeposits⟩,
            st.paymentLedger ++ [(distributePayment cfg cfg.queryPriceUSDC
              orch.agentsUsed st.paymentLedger).2]⟩, ⟨200, true⟩) := by
        simp [handleChat, hen, hw', hbal', hs, hne, hded, distributePayment, hw]
      refine ⟨?_, ?_, fun _ _ => ⟨?_, ?_⟩⟩
      · rw [h1]
        simp [hs, hres]
      · rintro (h | h)
        · rw [h] at hs
          cases hs
        · exact absurd h hres
      · rw [h1]
      · rw [h1]
        simp [getUserBalance, mget_mset_self]

/-- Witness for C1 (amended): a funded wallet and a successful two-agent
response get charged. -/
theorem chat_charge_criterion_witness :
    (handleChat ⟨true, "0xorch", 1/10, 1/2, 1/2⟩
      ⟨⟨[("0xuser", ⟨"0xuser", 1, 1, 0, [], 0⟩)], []⟩, []⟩ "0xuser"
      (some "plan a cheap trip")
      ⟨true, "plan a cheap trip", ["travel-planner", "budget-planner"],
        [⟨"travel-planner", "Travel Planner", ["searchFlights"], "Fly Tuesday."⟩,
          ⟨"budget-planner", "Budget Planner", [], "Budget: 1200 USD."⟩],
        "combined"⟩ 5).2.charged = true :=
  (chat_charge_criterion ⟨true, "0xorch", 1/10, 1/2, 1/2⟩
    ⟨⟨[("0xuser", ⟨"0xuser", 1, 1, 0, [], 0⟩)], []⟩, []⟩ "0xuser" "plan a cheap trip"
    ⟨true, "plan a cheap trip", ["travel-planner", "budget-planner"],
      [⟨"travel-planner", "Travel Planner", ["searchFlights"], "Fly Tuesday."⟩,
        ⟨"budget-planner", "Budget Planner", [], "Budget: 1200 USD."⟩],
      "combined"⟩ 5 ⟨"0xuser", 1, 1, 0, [], 0⟩
    rfl (by decide) rfl (by norm_num)).1.mpr ⟨rfl, by simp⟩

/-! ## Claims C2 and C3: ledger invariant and deposit idempotency -/

theorem forall_mset {α : Type} (P : α → Prop) {l : List (String × α)} {k : String} {v : α}
    (hl : ∀ kv ∈ l, P kv.2) (hv : P v) : ∀ kv ∈ mset l k v, P kv.2 := by
  intro kv hkv
  rcases mem_mset hkv with h | h
  · rw [h]
    exact hv
  · exact hl kv h

theorem getOrCreate_inv {s : LedgerState} (w : String) (now : ℤ) (h : LedgerInv s) :
    LedgerInv (getOrCreateUserBalance s w now).1
    ∧ BalOk (getOrCreateUserBalance s w now).2
    ∧ (getOrCreateUserBalance s w now).1.processedDeposits = s.processedDeposits := by
  cases hm : mget s.userBalances (strToLower w) with
  | some u =>
      refine ⟨?_, ?_, ?_⟩ <;> simp [getOrCreateUserBalance, hm]
      · exact h
      · exact h _ (mget_mem hm)
  | none =>
      refine ⟨?_, ?_, ?_⟩ <;> simp [getOrCreateUserBalance, hm]
      · exact forall_mset BalOk h ⟨by norm_num, by norm_num⟩
      · exact ⟨by norm_num, by norm_num⟩

theorem credit_inv {s : LedgerState} {a : ℚ} (w : String) (tx : Option String) (now : ℤ)
    (h : LedgerInv s) (ha : 0 ≤ a) : LedgerInv (creditBalance s w a tx now) := by
  obtain ⟨h1, h2, _⟩ := getOrCreate_inv w now h
  simp only [creditBalance]
  refine forall_mset BalOk h1 ?_
  obtain ⟨hb, hn⟩ := h2
  cases tx <;> exact ⟨by simp [BalOk] at hb ⊢; rw [hb]; ring, by positivity⟩

theorem credit_processed (s : LedgerState) (w : String) (a : ℚ) (tx : Option String)
    (now : ℤ) : (creditBalance s w a tx now).processedDeposits = s.processedDeposits := by
  simp only [creditBalance]
  cases hm : mget s.userBalances (strToLower w) <;>
    simp [getOrCreateUserBalance, hm]

theorem deduct_inv {s : LedgerState} (w : String) (a : ℚ) (now : ℤ) (h : LedgerInv s) :
    LedgerInv (deductBalance s w a now).1 := by
  cases hm : getUserBalance s w with
  | none => simpa [deductBalance, hm] using h
  | some u =>
      by_cases hlt : u.balance < a
      · simpa [deductBalance, hm, hlt] using h
      · simp only [deductBalance, hm, hlt, if_false]
        refine forall_mset BalOk h ?_
        obtain ⟨hb, _⟩ := h _ (mget_mem hm)
        refine ⟨?_, by simpa [sub_nonneg] using not_lt.mp hlt⟩
        simp only [BalOk] at hb
        simp [hb]
        ring

theorem processLogs_inv {cfg : PaymentConfig} {tx w : String} {now : ℤ}
    (logs : List (Option TransferEvent)) (s : LedgerState) (h : LedgerInv s) :
    LedgerInv (processTransferLogs cfg tx w now s logs).1 := by
  induction logs generalizing s with
  | nil => simpa [processTransferLogs] using h
  | cons hd t ih =>
      cases hd with
      | none => simpa [processTransferLogs] using ih s h
      | some ev =>
          by_cases h1 : strToLower ev.toAddr = strToLower cfg.orchestratorWallet
          · by_cases h2 : strToLower ev.fromAddr = strToLower w
            · simp only [processTransferLogs, h1, if_true, h2, ne_eq,
                not_true_eq_false, if_false]
              exact credit_inv _ _ _ h (by positivity)
            · simpa [processTransferLogs, h1, h2] using h
          · simpa [processTransferLogs, h1] using ih s h

theorem verify_inv {cfg : PaymentConfig} {chain : Chain} {s : LedgerState}
    (tx w : String) (now : ℤ) (h : LedgerInv s) :
    LedgerInv (verifyAndCreditDeposit cfg chain s tx w now).1 := by
  by_cases hc : tx ∈ s.processedDeposits
  · simpa [verifyAndCreditDeposit, hc] using h
  · cases hr : chain tx with
    | none => simpa [verifyAndCreditDeposit, hc, hr] using h
    | some receipt =>
        by_cases hst : receipt.status = 1
        · simp only [verifyAndCreditDeposit, hc, hr, hst]
          simpa [hc] using processLogs_inv _ _ h
        · simpa [verifyAndCreditDeposit, hc, hr, hst] using h


theorem applyOp_inv (cfg : PaymentConfig) (chain : Chain) {s : LedgerState}
    (op : LedgerOp) (h : LedgerInv s) (hop : op.creditNonneg) :
    LedgerInv (applyLedgerOp cfg chain s op) := by
  cases op with
  | getOrCreate w now => exact (getOrCreate_inv w now h).1
  | deduct w a now => exact deduct_inv w a now h
  | credit w a tx now => exact credit_inv w tx now h hop
  | verifyDeposit tx w now => exact verify_inv tx w now h

theorem applyOps_inv (cfg : PaymentConfig) (chain : Chain) (ops : List LedgerOp) :
    ∀ s : LedgerState, LedgerInv s → (∀ op ∈ ops, op.creditNonneg) →
      LedgerInv (applyLedgerOps cfg chain s ops) := by
  induction ops with
  | nil =>
      intro s hs _
      simpa [applyLedgerOps] using hs
  | cons op t ih =>
      intro s hs hops
      simp only [applyLedgerOps, List.foldl_cons] at ih ⊢
      exact ih _ (applyOp_inv cfg chain op hs (hops op (by simp)))
        (fun o ho => hops o (by simp [ho]))

/-- C2 (amended): starting from the empty ledger, every sequence of ledger
operations (`getOrCreate`, `deduct`, `credit`, `verifyAndCredit`) in which the
amounts passed to `credit` are nonnegative preserves
`balance = totalDeposited − totalSpent` and `balance ≥ 0` for every record
(deposit credits are `value / 10^6` of a uint256 and are automatically
nonnegative); and `deduct(wallet, amount)` returns `false` and leaves the
state unchanged whenever the wallet is unknown or `balance < amount`. -/
theorem ledger_invariant (cfg : PaymentConfig) (chain : Chain) (ops : List LedgerOp)
    (h : ∀ op ∈ ops, op.creditNonneg) :
    LedgerInv (applyLedgerOps cfg chain emptyLedger ops)
    ∧ (∀ (s : LedgerState) (w : String) (a : ℚ) (now : ℤ),
        (getUserBalance s w = none ∨ ∃ u, getUserBalance s w = some u ∧ u.balance < a) →
        deductBalance s w a now = (s, false)) := by
  constructor
  · exact applyOps_inv cfg chain ops emptyLedger (by intro kv hkv; simp [emptyLedger] at hkv) h
  · intro s w a now hcase
    rcases hcase with hn | ⟨u, hu, hlt⟩
    · simp [deductBalance, hn]
    · simp [deductBalance, hu, hlt]

/-- C2 counterexample: the claim quantifies over *every* sequence of ledger
operations, but `creditBalance` accepts a negative amount without any guard:
after `getOrCreate("wa"); credit("wa", −1)` the record's balance is `−1 < 0`,
violating the claimed non-negativity. (The equality
`balance = totalDeposited − totalSpent` does survive.) -/
theorem credit_negative_breaks_nonneg :
    ∃ u : UserBalance,
      getUserBalance (applyLedgerOps ⟨false, "", 0, 0, 0⟩ (fun _ => none) emptyLedger
        [.getOrCreate "wa" 0, .credit "wa" (-1) none 1]) "wa" = some u
      ∧ u.balance < 0 := by
  refine ⟨⟨"wa", -1, -1, 0, [], 1⟩, ?_, by norm_num⟩
  have hlow : strToLower "wa" = "wa" := rfl
  norm_num [applyLedgerOps, applyLedgerOp, getOrCreateUserBalance, creditBalance,
    getUserBalance, hlow, mget, mset, emptyLedger]

/-- Witness for C2 (amended): a deposit-then-spend history keeps the
invariant, and deducting from an unknown wallet fails without change. -/
theorem ledger_invariant_witness :
    LedgerInv (applyLedgerOps ⟨false, "", 0, 0, 0⟩ (fun _ => none) emptyLedger
      [.getOrCreate "wa" 0, .credit "wa" 1 (some "0xabc") 1, .deduct "wa" (1/2) 2])
    ∧ deductBalance emptyLedger "wa" 1 0 = (emptyLedger, false) := by
  have h := ledger_invariant ⟨false, "", 0, 0, 0⟩ (fun _ => none)
    [.getOrCreate "wa" 0, .credit "wa" 1 (some "0xabc") 1, .deduct "wa" (1/2) 2]
    (by intro op hop; fin_cases hop <;> norm_num [LedgerOp.creditNonneg])
  exact ⟨h.1, h.2 emptyLedger "wa" 1 0 (Or.inl rfl)⟩


theorem mem_setAdd_self (l : List String) (x : String) : x ∈ setAdd l x := by
  by_cases h : x ∈ l
  · simp [setAdd, h]
  · simp [setAdd, h]

theorem processLogs_success_mem {cfg : PaymentConfig} {tx w : String} {now : ℤ} :
    ∀ (logs : List (Option TransferEvent)) (s : LedgerState),
      (processTransferLogs cfg tx w now s logs).2.success = true →
      tx ∈ (processTransferLogs cfg tx w now s logs).1.processedDeposits := by
  intro logs
  induction logs with
  | nil =>
      intro s h
      simp [processTransferLogs] at h
  | cons hd t ih =>
      intro s h
      cases hd with
      | none =>
          simp only [processTransferLogs] at h ⊢
          exact ih s h
      | some ev =>
          by_cases h1 : strToLower ev.toAddr = strToLower cfg.orchestratorWallet
          · by_cases h2 : strToLower ev.fromAddr = strToLower w
            · simp only [processTransferLogs, h1, if_true, h2, ne_eq,
                not_true_eq_false, if_false]
              rw [credit_processed]
              exact mem_setAdd_self _ _
            · simp [processTransferLogs, h1, h2] at h
          · simp only [processTransferLogs, h1, if_false] at h ⊢
            exact ih s h

theorem verify_success_mem {cfg : PaymentConfig} {chain : Chain} {s : LedgerState}
    {tx w : String} {now : ℤ}
    (h : (verifyAndCreditDeposit cfg chain s tx w now).2.success = true) :
    tx ∈ (verifyAndCreditDeposit cfg chain s tx w now).1.processedDeposits := by
  by_cases hc : tx ∈ s.processedDeposits
  · simp [verifyAndCreditDeposit, hc] at h
  · cases hr : chain tx with
    | none => simp [verifyAndCreditDeposit, hc, hr] at h
    | some receipt =>
        by_cases hst : receipt.status = 1
        · simp [verifyAndCreditDeposit, hc, hr, hst] at h ⊢
          exact processLogs_success_mem _ _ h
        · simp [verifyAndCreditDeposit, hc, hr, hst] at h

/-- C3: replaying `verifyAndCredit` is rejected. If a first call for `tx`
succeeded (under any chain oracle and configuration), then a second call with
the same `tx` returns a failure with error `"Deposit already processed"` and
returns the state of the first call unchanged: nothing is added to the
processed-deposit set and no balance moves, so the wallet is credited exactly
once across the two calls. -/
theorem verify_idempotent (cfg : PaymentConfig) (chain : Chain) (s : LedgerState)
    (tx w : String) (now now2 : ℤ)
    (h : (verifyAndCreditDeposit cfg chain s tx w now).2.success = true) :
    verifyAndCreditDeposit cfg chain (verifyAndCreditDeposit cfg chain s tx w now).1
        tx w now2
      = ((verifyAndCreditDeposit cfg chain s tx w now).1,
        ⟨false, none, some "Deposit already processed"⟩) := by
  have hmem := verify_success_mem h
  generalize (verifyAndCreditDeposit cfg chain s tx w now).1 = s1 at hmem ⊢
  simp [verifyAndCreditDeposit, hmem]

/-- Witness for C3: a concrete confirmed USDC transfer of 1 USDC; the first
call succeeds, the second returns `Deposit already processed` and changes
nothing. -/
theorem verify_idempotent_witness :
    verifyAndCreditDeposit ⟨false, "0xOrch", 0, 0, 0⟩
        (fun h => if h = "0xabc" then some ⟨1, [some ⟨"0xSender", "0xOrch", 1000000⟩]⟩
          else none)
        (verifyAndCreditDeposit ⟨false, "0xOrch", 0, 0, 0⟩
          (fun h => if h = "0xabc" then some ⟨1, [some ⟨"0xSender", "0xOrch", 1000000⟩]⟩
            else none) emptyLedger "0xabc" "0xSender" 0).1 "0xabc" "0xSender" 1
      = ((verifyAndCreditDeposit ⟨false, "0xOrch", 0, 0, 0⟩
          (fun h => if h = "0xabc" then some ⟨1, [some ⟨"0xSender", "0xOrch", 1000000⟩]⟩
            else none) emptyLedger "0xabc" "0xSender" 0).1,
        ⟨false, none, some "Deposit already processed"⟩) :=
  verify_idempotent _ _ _ "0xabc" "0xSender" 0 1 rfl

/-! ## Claim C4: exactly one outcome per runId -/

theorem mget_none_iff {α : Type} (l : List (String × α)) (k : String) :
    mget l k = none ↔ k ∉ l.map Prod.fst := by
  induction l with
  | nil => simp [mget]
  | cons hd t ih =>
      obtain ⟨k₀, v₀⟩ := hd
      by_cases hk : k₀ = k
      · subst hk
        simp [mget]
      · have hne : ¬k = k₀ := fun hh => hk hh.symm
        simp [mget, hk, ih, hne]

theorem mdel_sublist {α : Type} (l : List (String × α)) (k : String) :
    (mdel l k).Sublist l := by
  induction l with
  | nil => simp [mdel]
  | cons hd t ih =>
      obtain ⟨k₀, v₀⟩ := hd
      by_cases hk : k₀ = k
      · simp only [mdel, hk, if_true]
        exact List.sublist_cons_self _ _
      · simp [mdel, hk]
        exact ih

theorem mget_mdel_self {α : Type} {l : List (String × α)} (h : (l.map Prod.fst).Nodup)
    (k : String) : mget (mdel l k) k = none := by
  induction l with
  | nil => rfl
  | cons hd t ih =>
      obtain ⟨k₀, v₀⟩ := hd
      simp only [List.map_cons, List.nodup_cons] at h
      by_cases hk : k₀ = k
      · subst hk
        simpa [mdel] using (mget_none_iff t k₀).mpr h.1
      · simp [mdel, hk, mget, ih h.2]

theorem stepDispatch_outcome_target (s : PendingMap) (e : DispatchEvent) :
    ∀ x ∈ (stepDispatch s e).2.toList, x.1 = targetOf e := by
  cases e with
  | deadlineFires r =>
      by_cases h : containsKey s r <;> simp [stepDispatch, h, targetOf]
  | jobResultArrives pl =>
      cases h : mget s pl.runId <;> simp [stepDispatch, h, targetOf]

theorem stepDispatch_state (s : PendingMap) (e : DispatchEvent) :
    (stepDispatch s e).1 = s ∨ (stepDispatch s e).1 = mdel s (targetOf e) := by
  cases e with
  | deadlineFires r =>
      by_cases h : containsKey s r <;> simp [stepDispatch, h, targetOf]
  | jobResultArrives pl =>
      cases h : mget s pl.runId <;> simp [stepDispatch, h, targetOf]

theorem stepDispatch_no_entry (s : PendingMap) (e : DispatchEvent)
    (h : mget s (targetOf e) = none) : stepDispatch s e = (s, none) := by
  cases e with
  | deadlineFires r =>
      simp only [targetOf] at h
      simp [stepDispatch, containsKey, h]
  | jobResultArrives pl =>
      simp only [targetOf] at h
      simp [stepDispatch, h]

theorem stepDispatch_delivers (s : PendingMap) (e : DispatchEvent) {pj : PendingJob}
    (h : mget s (targetOf e) = some pj) :
    (stepDispatch s e).1 = mdel s (targetOf e)
    ∧ ∃ out, (stepDispatch s e).2 = some (targetOf e, out) := by
  cases e with
  | deadlineFires r =>
      simp only [targetOf] at h
      simp [stepDispatch, containsKey, h, targetOf]
  | jobResultArrives pl =>
      simp only [targetOf] at h
      simp [stepDispatch, h, targetOf]

theorem runDispatch_none {r : String} :
    ∀ (evs : List DispatchEvent) (s : PendingMap), mget s r = none →
      outcomesFor r (runDispatch s evs).2 = [] := by
  intro evs
  induction evs with
  | nil =>
      intro s _
      simp [runDispatch, outcomesFor]
  | cons e t ih =>
      intro s hs
      simp only [runDispatch, outcomesFor, List.filter_append]
      by_cases ht : targetOf e = r
      · rw [← ht] at hs
        rw [stepDispatch_no_entry s e hs]
        simpa [outcomesFor] using ih s (ht ▸ hs)
      · have h1 : List.filter (fun x => x.1 == r) (stepDispatch s e).2.toList = [] := by
          rw [List.filter_eq_nil_iff]
          intro x hx
          simp [stepDispatch_outcome_target s e x hx, ht]
        have h2 : mget (stepDispatch s e).1 r = none := by
          rcases stepDispatch_state s e with h | h <;> rw [h]
          · exact hs
          · rw [mget_mdel_ne _ (fun hh => ht hh.symm)]
            exact hs
        rw [h1]
        simpa [outcomesFor] using ih _ h2

theorem runDispatch_one {r : String} :
    ∀ (evs : List DispatchEvent) (s : PendingMap) (pj : PendingJob),
      (s.map Prod.fst).Nodup → mget s r = some pj →
      (∃ e ∈ evs, targetOf e = r) →
      (outcomesFor r (runDispatch s evs).2).length = 1 := by
  intro evs
  induction evs with
  | nil =>
      intro s pj _ _ hex
      simp at hex
  | cons e t ih =>
      intro s pj hnd hs hex
      simp only [runDispatch, outcomesFor, List.filter_append, List.length_append]
      by_cases ht : targetOf e = r
      · obtain ⟨hst, out, hout⟩ := stepDispatch_delivers s e (ht ▸ hs)
        have hrest : outcomesFor r (runDispatch (stepDispatch s e).1 t).2 = [] := by
          refine runDispatch_none t _ ?_
          rw [hst, ht]
          exact mget_mdel_self hnd r
        simp only [outcomesFor] at hrest
        simp [hout, ht, hrest]
      · have h1 : List.filter (fun x => x.1 == r) (stepDispatch s e).2.toList = [] := by
          rw [List.filter_eq_nil_iff]
          intro x hx
          simp [stepDispatch_outcome_target s e x hx, ht]
        have h2 : mget (stepDispatch s e).1 r = some pj := by
          rcases stepDispatch_state s e with h | h <;> rw [h]
          · exact hs
          · rw [mget_mdel_ne _ (fun hh => ht hh.symm)]
            exact hs
        have h3 : ((stepDispatch s e).1.map Prod.fst).Nodup := by
          rcases stepDispatch_state s e with h | h <;> rw [h]
          · exact hnd
          · exact ((mdel_sublist s (targetOf e)).map Prod.fst).nodup hnd
        have h4 : ∃ e' ∈ t, targetOf e' = r := by
          rcases hex with ⟨e', he', htg⟩
          rcases List.mem_cons.mp he' with rfl | hmem
          · exact absurd htg ht
          · exact ⟨e', hmem, htg⟩
        have := ih _ pj h3 h2 h4
        simp only [outcomesFor] at this
        simp [h1, this]


/-- C4: for every dispatched runId with a registered pending entry (pending
keys are unique: entries are keyed by fresh runIds), any interleaving of
event-loop turns that contains the deadline firing (the timer is never
cancelled, so it always fires) delivers exactly one outcome — a JOB_RESULT
payload or the timeout error — to the waiting caller, no matter how many
JOB_RESULT frames arrive or in which order; and a JOB_RESULT whose runId has
no pending entry is discarded without delivering anything or modifying the
pending map. -/
theorem dispatch_exactly_one_outcome :
    (∀ (s : PendingMap) (evs : List DispatchEvent) (r : String) (pj : PendingJob),
        (s.map Prod.fst).Nodup → mget s r = some pj →
        DispatchEvent.deadlineFires r ∈ evs →
        (outcomesFor r (runDispatch s evs).2).length = 1)
    ∧ (∀ (s : PendingMap) (pl : JobResultPayload), mget s pl.runId = none →
        stepDispatch s (.jobResultArrives pl) = (s, none)) := by
  constructor
  · intro s evs r pj hnd hget hmem
    exact runDispatch_one evs s pj hnd hget ⟨_, hmem, rfl⟩
  · intro s pl h
    exact stepDispatch_no_entry s (.jobResultArrives pl) h

/-- Witness for C4: a result arriving before the deadline fires, followed by
a late duplicate, yields exactly one outcome; an unknown runId is discarded
with the map unchanged. -/
theorem dispatch_exactly_one_outcome_witness :
    (outcomesFor "run-1" (runDispatch [("run-1", ⟨"job-1", "run-1", "node-1", "agent"⟩)]
      [.jobResultArrives ⟨"job-1", "run-1", .SUCCESS, none, [], none, ⟨0, 1, 1⟩⟩,
        .deadlineFires "run-1",
        .jobResultArrives ⟨"job-1", "run-1", .ERROR, none, [], none, ⟨0, 2, 2⟩⟩]).2).length
      = 1
    ∧ stepDispatch []
        (.jobResultArrives ⟨"job-9", "run-9", .SUCCESS, none, [], none, ⟨0, 1, 1⟩⟩)
        = ([], none) :=
  ⟨dispatch_exactly_one_outcome.1 _ _ "run-1" ⟨"job-1", "run-1", "node-1", "agent"⟩
      (by simp) rfl (by simp),
    dispatch_exactly_one_outcome.2 _ _ rfl⟩

/-! ## Claims C5 and C6: retry bound and runId uniqueness -/

theorem keys_perm_mdel {α : Type} {l : List (String × α)} {k : String} {v : α}
    (h : mget l k = some v) :
    (l.map Prod.fst).Perm (k :: (mdel l k).map Prod.fst) := by
  induction l with
  | nil => simp [mget] at h
  | cons hd t ih =>
      obtain ⟨k₀, v₀⟩ := hd
      by_cases hk : k₀ = k
      · subst hk
        simp [mdel]
      · simp only [mget, hk, if_false] at h
        simp only [mdel, hk, if_false, List.map_cons]
        exact (List.Perm.cons k₀ (ih h)).trans (List.Perm.swap _ _ _)

theorem mset_eq_append {α : Type} {l : List (String × α)} {k : String} (v : α)
    (h : mget l k = none) : mset l k v = l ++ [(k, v)] := by
  induction l with
  | nil => simp [mset]
  | cons hd t ih =>
      obtain ⟨k₀, v₀⟩ := hd
      by_cases hk : k₀ = k
      · subst hk
        simp [mget] at h
      · simp only [mget, hk, if_false] at h
        simp [mset, hk, ih h]

theorem extractFirst_none {p : QueuedJob → Bool} :
    ∀ {l : List QueuedJob}, (extractFirst p l).1 = none → (extractFirst p l).2 = l := by
  intro l
  induction l with
  | nil => simp [extractFirst]
  | cons j t ih =>
      by_cases hp : p j
      · simp [extractFirst, hp]
      · simp only [extractFirst, hp, Bool.false_eq_true, if_false]
        intro h
        simpa using ih h

theorem extractFirst_some {p : QueuedJob → Bool} :
    ∀ {l l' : List QueuedJob} {j : QueuedJob}, extractFirst p l = (some j, l') →
      l.Perm (j :: l') := by
  intro l
  induction l with
  | nil => simp [extractFirst]
  | cons a t ih =>
      intro l' j h
      by_cases hp : p a
      · simp only [extractFirst, hp, if_true, Prod.mk.injEq, Option.some.injEq] at h
        rw [← h.1, ← h.2]
      · simp only [extractFirst, hp, Bool.false_eq_true, if_false] at h
        cases hext : extractFirst p t with
        | mk found rest =>
            rw [hext] at h
            cases found with
            | none => simp at h
            | some j₀ =>
                simp only [Prod.mk.injEq, Option.some.injEq] at h
                obtain ⟨rfl, rfl⟩ := h
                exact (List.Perm.cons a (ih hext)).trans (List.Perm.swap _ _ _)

theorem eraseP_runId_perm : ∀ {l : List QueuedJob} {j : QueuedJob}, j ∈ l →
    (l.map (fun x => x.runId)).Perm
      (j.runId :: (l.eraseP (fun x => x.runId == j.runId)).map (fun x => x.runId)) := by
  intro l
  induction l with
  | nil => simp
  | cons a t ih =>
      intro j hj
      by_cases hp : a.runId == j.runId
      · simp only [List.eraseP_cons, hp, cond_true, List.map_cons]
        rw [show a.runId = j.runId from by simpa using hp]
      · simp only [List.eraseP_cons, hp, Bool.false_eq_true, cond_false, List.map_cons]
        have hjt : j ∈ t := by
          rcases List.mem_cons.mp hj with rfl | h
          · simp at hp
          · exact h
        exact (List.Perm.cons a.runId (ih hjt)).trans (List.Perm.swap _ _ _)


theorem inv_enqueue {g : GQueueState} (nj : NewJob) (now : ℤ)
    (hfresh : nj.runId ∉ allRunIds g) (hI : QueueInv g) :
    QueueInv ⟨(enqueue g.q nj now).1, g.checkedOut⟩ := by
  have hperm : (allRunIds ⟨(enqueue g.q nj now).1, g.checkedOut⟩).Perm
      (nj.runId :: allRunIds g) := by
    simp only [allRunIds, enqueue, List.map_append, List.map_cons, List.map_nil,
      List.append_assoc]
    exact List.perm_middle
  refine ⟨?_, ?_, ?_, ?_, ?_, ?_⟩
  · rw [hperm.nodup_iff]
    exact List.nodup_cons.mpr ⟨hfresh, hI.nodup⟩
  · exact hI.runKey
  · intro j hj
    simp only [enqueue, List.mem_append, List.mem_singleton] at hj
    rcases hj with hj | rfl
    · exact hI.liveP j hj
    · exact ⟨by norm_num [DEFAULT_MAX_RETRIES], rfl⟩
  · exact hI.liveC
  · exact hI.liveR
  · exact hI.dead


theorem inv_dequeue {g : GQueueState} (caps : List String) (hI : QueueInv g) :
    QueueInv ⟨(dequeue g.q caps).1,
      (dequeue g.q caps).2.toList ++ g.checkedOut⟩ := by
  cases hext : extractFirst
      (fun job => job.requiredCapabilities.all (fun cap => caps.contains cap))
      g.q.pendingQueue with
  | mk found rest =>
      cases found with
      | none =>
          have hrest : rest = g.q.pendingQueue := by
            have := extractFirst_none (p := fun job =>
              job.requiredCapabilities.all (fun cap => caps.contains cap))
              (l := g.q.pendingQueue)
            rw [hext] at this
            exact this rfl
          subst hrest
          have hq : (dequeue g.q caps).1 = g.q := by
            simp only [dequeue]
            rw [hext]
          have hco : (dequeue g.q caps).2.toList ++ g.checkedOut = g.checkedOut := by
            simp only [dequeue]
            rw [hext]
            rfl
          rw [hq, hco]
          exact hI
      | some j =>
          have hperm : g.q.pendingQueue.Perm (j :: rest) := extractFirst_some hext
          have hq : (dequeue g.q caps).1 =
              { g.q with pendingQueue := rest } := by
            simp only [dequeue]
            rw [hext]
          have hco : (dequeue g.q caps).2.toList ++ g.checkedOut = j :: g.checkedOut := by
            simp only [dequeue]
            rw [hext]
            rfl
          rw [hq, hco]
          have hpermIds : (allRunIds ⟨{ g.q with pendingQueue := rest },
              j :: g.checkedOut⟩).Perm (allRunIds g) := by
            simp only [allRunIds, List.map_cons, List.append_assoc]
            refine List.perm_middle.trans ?_
            exact ((hperm.map (fun x => x.runId)).symm.append_right _)
          refine ⟨?_, hI.runKey, ?_, ?_, hI.liveR, hI.dead⟩
          · rw [hpermIds.nodup_iff]
            exact hI.nodup
          · intro x hx
            exact hI.liveP x (hperm.mem_iff.mpr (List.mem_cons_of_mem _ hx))
          · intro x hx
            rcases List.mem_cons.mp hx with rfl | hx
            · exact hI.liveP x (hperm.mem_iff.mpr (List.mem_cons_self _ _))
            · exact hI.liveC x hx


theorem inv_markRunning {g : GQueueState} {job : QueuedJob} (nodeId : String) (now : ℤ)
    (hmem : job ∈ g.checkedOut) (hI : QueueInv g) :
    QueueInv ⟨markRunning g.q job nodeId now,
      g.checkedOut.eraseP (fun j => j.runId == job.runId)⟩ := by
  have hnd := hI.nodup
  simp only [allRunIds] at hnd
  have hpeel :=
    List.nodup_append.mp (List.nodup_append.mp (List.nodup_append.mp hnd).1).1
  have hCid : job.runId ∈ g.checkedOut.map (fun j => j.runId) :=
    List.mem_map_of_mem _ hmem
  have hnotR : job.runId ∉ g.q.runningJobs.map Prod.fst :=
    hpeel.2.2 (List.mem_append_right _ hCid)
  have hmset : mset g.q.runningJobs job.runId
      (⟨job, .RUNNING, some nodeId, some now, none, none, none⟩ : JobRecord)
      = g.q.runningJobs ++ [(job.runId,
          (⟨job, .RUNNING, some nodeId, some now, none, none, none⟩ : JobRecord))] :=
    mset_eq_append _ ((mget_none_iff _ _).mpr hnotR)
  have hC := eraseP_runId_perm hmem
  have hperm : (allRunIds ⟨markRunning g.q job nodeId now,
      g.checkedOut.eraseP (fun j => j.runId == job.runId)⟩).Perm (allRunIds g) := by
    simp only [allRunIds, markRunning, hmset, List.map_append, List.map_cons,
      List.map_nil, List.append_assoc]
    refine List.Perm.append_left _ ?_
    refine List.Perm.trans (List.Perm.append_left _ List.perm_middle) ?_
    refine List.Perm.trans List.perm_middle ?_
    exact (hC.symm.append_right _)
  refine ⟨?_, ?_, hI.liveP, ?_, ?_, hI.dead⟩
  · rw [hperm.nodup_iff]
    exact hI.nodup
  · intro kv hkv
    simp only [markRunning, hmset, List.mem_append, List.mem_singleton] at hkv
    rcases hkv with hkv | rfl
    · exact hI.runKey kv hkv
    · rfl
  · intro j hj
    exact hI.liveC j ((List.eraseP_sublist _).mem hj)
  · intro kv hkv
    simp only [markRunning, hmset, List.mem_append, List.mem_singleton] at hkv
    rcases hkv with hkv | rfl
    · exact hI.liveR kv hkv
    · exact hI.liveC job hmem


theorem inv_markComplete {g : GQueueState} (r : String) (su : Bool)
    (res : Option Json) (err : Option String) (now : ℤ) (hI : QueueInv g) :
    QueueInv ⟨markComplete g.q r su res err now, g.checkedOut⟩ := by
  cases hm : mget g.q.runningJobs r with
  | none =>
      have hq : markComplete g.q r su res err now = g.q := by
        simp [markComplete, hm]
      rw [hq]
      exact hI
  | some rec =>
      have hrk : r ∈ g.q.runningJobs.map Prod.fst := by
        simpa using List.mem_map_of_mem Prod.fst (mget_mem hm)
      have hnd := hI.nodup
      simp only [allRunIds] at hnd
      have hpeel2 := List.nodup_append.mp (List.nodup_append.mp hnd).1
      have hnotM : r ∉ g.q.completedJobs.map Prod.fst :=
        hpeel2.2.2 (List.mem_append_right _ hrk)
      have hRperm := keys_perm_mdel hm
      set rec2 : JobRecord := { rec with
        status := if su then JobStatus.SUCCESS else JobStatus.FAILED
        completedAt := some now
        result := res
        error := err } with hrec2
      have hmset : mset g.q.completedJobs r rec2 = g.q.completedJobs ++ [(r, rec2)] :=
        mset_eq_append _ ((mget_none_iff _ _).mpr hnotM)
      have hq : markComplete g.q r su res err now =
          { g.q with
            runningJobs := mdel g.q.runningJobs r
            completedJobs := g.q.completedJobs ++ [(r, rec2)] } := by
        simp [markComplete, hm, hmset, hrec2]
      rw [hq]
      have hperm : (allRunIds ⟨{ g.q with
          runningJobs := mdel g.q.runningJobs r
          completedJobs := g.q.completedJobs ++ [(r, rec2)] }, g.checkedOut⟩).Perm
          (allRunIds g) := by
        simp only [allRunIds, List.map_append, List.map_cons, List.map_nil,
          List.append_assoc]
        refine List.Perm.append_left _ ?_
        refine List.Perm.append_left _ ?_
        refine List.Perm.trans (List.Perm.append_left _ List.perm_middle) ?_
        refine List.Perm.trans List.perm_middle ?_
        exact (hRperm.symm.append_right _)
      refine ⟨?_, ?_, hI.liveP, hI.liveC, ?_, hI.dead⟩
      · rw [hperm.nodup_iff]
        exact hI.nodup
      · intro kv hkv
        exact hI.runKey kv ((mdel_sublist _ _).mem hkv)
      · intro kv hkv
        exact hI.liveR kv ((mdel_sublist _ _).mem hkv)


theorem inv_markTimeout {g : GQueueState} (r : String) (hI : QueueInv g) :
    QueueInv ⟨markTimeout g.q r, g.checkedOut⟩ := by
  cases hm : mget g.q.runningJobs r with
  | none =>
      have hq : markTimeout g.q r = g.q := by
        simp [markTimeout, hm]
      rw [hq]
      exact hI
  | some rec =>
      have hkv : (r, rec) ∈ g.q.runningJobs := mget_mem hm
      have hrid : rec.job.runId = r := hI.runKey _ hkv
      have hlive := hI.liveR _ hkv
      have hRperm := keys_perm_mdel hm
      by_cases hb : rec.job.maxRetries ≤ rec.job.retryCount + 1
      · have hq : markTimeout g.q r =
            { g.q with
              runningJobs := mdel g.q.runningJobs r
              deadLetterQueue := g.q.deadLetterQueue ++ [{ rec with
                job := { rec.job with retryCount := rec.job.retryCount + 1 }
                status := JobStatus.DEAD
                error := some ("Exceeded max retries ("
                  ++ toString rec.job.maxRetries ++ ")") }] } := by
          simp [markTimeout, hm, hb]
        rw [hq]
        have hperm : (allRunIds ⟨{ g.q with
            runningJobs := mdel g.q.runningJobs r
            deadLetterQueue := g.q.deadLetterQueue ++ [{ rec with
              job := { rec.job with retryCount := rec.job.retryCount + 1 }
              status := JobStatus.DEAD
              error := some ("Exceeded max retries ("
                ++ toString rec.job.maxRetries ++ ")") }] }, g.checkedOut⟩).Perm
            (allRunIds g) := by
          simp only [allRunIds, List.map_append, List.map_cons, List.map_nil,
            List.append_assoc, hrid]
          refine List.Perm.append_left _ ?_
          refine List.Perm.append_left _ ?_
          refine List.Perm.trans ?_ ((hRperm.append_right _).symm)
          refine List.Perm.trans (List.Perm.append_left _
            (List.Perm.append_left _ (List.perm_append_singleton _ _))) ?_
          refine List.Perm.trans (List.Perm.append_left _ List.perm_middle) ?_
          exact List.perm_middle
        refine ⟨?_, ?_, hI.liveP, hI.liveC, ?_, ?_⟩
        · rw [hperm.nodup_iff]
          exact hI.nodup
        · intro kv hkv'
          exact hI.runKey kv ((mdel_sublist _ _).mem hkv')
        · intro kv hkv'
          exact hI.liveR kv ((mdel_sublist _ _).mem hkv')
        · intro drec hdrec
          simp only [List.mem_append, List.mem_singleton] at hdrec
          rcases hdrec with hdrec | rfl
          · exact hI.dead drec hdrec
          · exact ⟨le_antisymm hlive.1 hb |>.symm ▸ rfl, hlive.2⟩
      · have hq : markTimeout g.q r =
            { g.q with
              runningJobs := mdel g.q.runningJobs r
              pendingQueue := g.q.pendingQueue
                ++ [{ rec.job with retryCount := rec.job.retryCount + 1 }] } := by
          simp [markTimeout, hm, hb]
        rw [hq]
        have hperm : (allRunIds ⟨{ g.q with
            runningJobs := mdel g.q.runningJobs r
            pendingQueue := g.q.pendingQueue
              ++ [{ rec.job with retryCount := rec.job.retryCount + 1 }] },
            g.checkedOut⟩).Perm (allRunIds g) := by
          simp only [allRunIds, List.map_append, List.map_cons, List.map_nil,
            List.append_assoc, hrid]
          refine List.Perm.trans List.perm_middle ?_
          refine List.Perm.symm ?_
          refine List.Perm.trans (List.Perm.append_left _
            (List.Perm.append_left _ (hRperm.append_right _))) ?_
          refine List.Perm.trans (List.Perm.append_left _ List.perm_middle) ?_
          exact List.perm_middle
        refine ⟨?_, ?_, ?_, hI.liveC, ?_, hI.dead⟩
        · rw [hperm.nodup_iff]
          exact hI.nodup
        · intro kv hkv'
          exact hI.runKey kv ((mdel_sublist _ _).mem hkv')
        · intro j hj
          simp only [List.mem_append, List.mem_singleton] at hj
          rcases hj with hj | rfl
          · exact hI.liveP j hj
          · exact ⟨Nat.lt_of_le_of_ne (Nat.succ_le_of_lt hlive.1)
              (fun hh => hb (le_of_eq hh.symm)), hlive.2⟩
        · intro kv hkv'
          exact hI.liveR kv ((mdel_sublist _ _).mem hkv')


theorem inv_foldTimeout {co : List QueuedJob} :
    ∀ (rs : List String) (q : QueueState), QueueInv ⟨q, co⟩ →
      QueueInv ⟨rs.foldl markTimeout q, co⟩ := by
  intro rs
  induction rs with
  | nil =>
      intro q h
      simpa using h
  | cons r t ih =>
      intro q h
      simpa [List.foldl_cons] using ih (markTimeout q r) (inv_markTimeout r h)

theorem inv_checkTimeouts {g : GQueueState} (now : ℤ) (hI : QueueInv g) :
    QueueInv ⟨(checkTimeouts g.q now).1, g.checkedOut⟩ := by
  simp only [checkTimeouts]
  exact inv_foldTimeout _ _ hI

theorem inv_step {g g' : GQueueState} (hstep : QueueStep g g') (hI : QueueInv g) :
    QueueInv g' := by
  cases hstep with
  | enqueue nj now hfresh => exact inv_enqueue nj now hfresh hI
  | dequeue caps => exact inv_dequeue caps hI
  | markRunning job nodeId now hmem => exact inv_markRunning nodeId now hmem hI
  | markComplete r su res err now => exact inv_markComplete r su res err now hI
  | markTimeout r => exact inv_markTimeout r hI
  | checkTimeouts now => exact inv_checkTimeouts now hI

theorem inv_reachable {g : GQueueState} (hg : QueueReachable g) : QueueInv g := by
  induction hg with
  | refl =>
      refine ⟨?_, ?_, ?_, ?_, ?_, ?_⟩ <;> simp [allRunIds, emptyQueue]
  | tail _ hstep ih => exact inv_step hstep ih


/-- C5: in every reachable queue state, `markTimeout(runId)` on a running
record removes it from the running map and increments the job's `retryCount`;
the record moves to the dead-letter list with error
`"Exceeded max retries (maxRetries)"` exactly when the incremented count
reaches `maxRetries` (always the default `3`), and otherwise the bumped job
is appended to the tail of the pending queue; and every dead-letter record
has `retryCount = maxRetries = 3` — a job reaches dead-letter only after
exactly `maxRetries` timeouts, never before. -/
theorem markTimeout_retry_semantics (g : GQueueState) (hg : QueueReachable g)
    (r : String) (rec : JobRecord) (h : mget g.q.runningJobs r = some rec) :
    (markTimeout g.q r).runningJobs = mdel g.q.runningJobs r
    ∧ rec.job.maxRetries = 3
    ∧ (rec.job.retryCount + 1 = rec.job.maxRetries →
        (markTimeout g.q r).deadLetterQueue
          = g.q.deadLetterQueue ++ [{ rec with
              job := { rec.job with retryCount := rec.job.retryCount + 1 }
              status := JobStatus.DEAD
              error := some ("Exceeded max retries ("
                ++ toString rec.job.maxRetries ++ ")") }]
        ∧ (markTimeout g.q r).pendingQueue = g.q.pendingQueue)
    ∧ (rec.job.retryCount + 1 ≠ rec.job.maxRetries →
        (markTimeout g.q r).pendingQueue
          = g.q.pendingQueue
            ++ [{ rec.job with retryCount := rec.job.retryCount + 1 }]
        ∧ (markTimeout g.q r).deadLetterQueue = g.q.deadLetterQueue)
    ∧ (∀ drec ∈ (markTimeout g.q r).deadLetterQueue,
        drec.job.retryCount = drec.job.maxRetries ∧ drec.job.maxRetries = 3) := by
  have hI := inv_reachable hg
  have hkv := mget_mem h
  have hlive := hI.liveR _ hkv
  refine ⟨?_, hlive.2, ?_, ?_, ?_⟩
  · by_cases hb : rec.job.maxRetries ≤ rec.job.retryCount + 1 <;>
      simp [markTimeout, h, hb]
  · intro hb
    have hcond : rec.job.maxRetries ≤ rec.job.retryCount + 1 := le_of_eq hb.symm
    constructor <;> simp [markTimeout, h, hcond]
  · intro hb
    have hcond : ¬rec.job.maxRetries ≤ rec.job.retryCount + 1 := by
      have h1 : rec.job.retryCount + 1 ≤ rec.job.maxRetries :=
        Nat.succ_le_of_lt hlive.1
      omega
    constructor <;> simp [markTimeout, h, hcond]
  · intro drec hdrec
    exact (inv_markTimeout r hI).dead drec hdrec

/-- C6 counterexample: the claim quantifies over *every* sequence of the six
exported queue operations, but `markRunning` accepts any job object: calling
it with a job that was enqueued and never dequeued leaves the same runId in
both the pending queue and the running map at once. -/
theorem runId_in_pending_and_running :
    inPending (markRunning (enqueue emptyQueue demoNewJob 0).1
        (enqueue emptyQueue demoNewJob 0).2 "node-1" 1) "run-1" = true
    ∧ inRunning (markRunning (enqueue emptyQueue demoNewJob 0).1
        (enqueue emptyQueue demoNewJob 0).2 "node-1" 1) "run-1" = true :=
  ⟨rfl, rfl⟩

/-- C6 (amended): for every sequence of queue operations in which each
`markRunning` is applied to a job previously returned by `dequeue` (at most
once) and every enqueued runId is fresh — the discipline of the queue's
callers — each runId is present in at most one of the pending queue, the
running map, the completed map and the dead-letter list. -/
theorem queue_runId_at_most_one (g : GQueueState) (hg : QueueReachable g)
    (r : String) :
    cond (inPending g.q r) 1 0 + cond (inRunning g.q r) 1 0
      + cond (inCompleted g.q r) 1 0 + cond (inDeadLetter g.q r) 1 0 ≤ 1 := by
  have hnd := (inv_reachable hg).nodup
  have hcount : (allRunIds g).count r ≤ 1 :=
    List.nodup_iff_count_le_one.mp hnd r
  have hsplit : (allRunIds g).count r
      = (g.q.pendingQueue.map (fun j => j.runId)).count r
        + (g.checkedOut.map (fun j => j.runId)).count r
        + (g.q.runningJobs.map Prod.fst).count r
        + (g.q.completedJobs.map Prod.fst).count r
        + (g.q.deadLetterQueue.map (fun rec => rec.job.runId)).count r := by
    simp [allRunIds, List.count_append]
    omega
  have h1 : cond (inPending g.q r) 1 0
      ≤ (g.q.pendingQueue.map (fun j => j.runId)).count r := by
    cases hp : inPending g.q r
    · simp
    · simp only [cond_true]
      simp only [inPending, List.any_eq_true, beq_iff_eq] at hp
      obtain ⟨j, hj, rfl⟩ := hp
      exact List.count_pos_iff.mpr (List.mem_map_of_mem _ hj)
  have h2 : cond (inRunning g.q r) 1 0
      ≤ (g.q.runningJobs.map Prod.fst).count r := by
    cases hp : inRunning g.q r
    · simp
    · simp only [cond_true]
      simp only [inRunning, containsKey, Option.isSome_iff_exists] at hp
      obtain ⟨v, hv⟩ := hp
      exact List.count_pos_iff.mpr (by simpa using List.mem_map_of_mem Prod.fst (mget_mem hv))
  have h3 : cond (inCompleted g.q r) 1 0
      ≤ (g.q.completedJobs.map Prod.fst).count r := by
    cases hp : inCompleted g.q r
    · simp
    · simp only [cond_true]
      simp only [inCompleted, containsKey, Option.isSome_iff_exists] at hp
      obtain ⟨v, hv⟩ := hp
      exact List.count_pos_iff.mpr (by simpa using List.mem_map_of_mem Prod.fst (mget_mem hv))
  have h4 : cond (inDeadLetter g.q r) 1 0
      ≤ (g.q.deadLetterQueue.map (fun rec => rec.job.runId)).count r := by
    cases hp : inDeadLetter g.q r
    · simp
    · simp only [cond_true]
      simp only [inDeadLetter, List.any_eq_true, beq_iff_eq] at hp
      obtain ⟨rec, hrec, hrid⟩ := hp
      refine List.count_pos_iff.mpr ?_
      rw [← hrid]
      exact List.mem_map_of_mem _ hrec
  omega

theorem demoReachable : QueueReachable ⟨demoRunningState, []⟩ := by
  have h1 : QueueStep ⟨emptyQueue, []⟩ ⟨(enqueue emptyQueue demoNewJob 0).1, []⟩ :=
    QueueStep.enqueue ⟨emptyQueue, []⟩ demoNewJob 0 (by simp [allRunIds, emptyQueue])
  have h2 := QueueStep.dequeue ⟨(enqueue emptyQueue demoNewJob 0).1, []⟩ []
  have h3 := QueueStep.markRunning
    ⟨(dequeue (enqueue emptyQueue demoNewJob 0).1 []).1,
      (dequeue (enqueue emptyQueue demoNewJob 0).1 []).2.toList ++ []⟩
    demoQueuedJob "node-1" 1 (List.Mem.head _)
  exact Relation.ReflTransGen.tail (Relation.ReflTransGen.tail
    (Relation.ReflTransGen.tail Relation.ReflTransGen.refl h1) h2) h3

/-- Witness for C5: timing out the reachable one-running-job state requeues
the job with `retryCount = 1` and dead-letters nothing. -/
theorem markTimeout_retry_semantics_witness :
    (markTimeout demoRunningState "run-1").pendingQueue
      = [{ demoQueuedJob with retryCount := 1 }]
    ∧ (markTimeout demoRunningState "run-1").deadLetterQueue = [] := by
  have h := markTimeout_retry_semantics ⟨demoRunningState, []⟩ demoReachable
    "run-1" demoRecord rfl
  have h4 := h.2.2.2.1 (by decide)
  exact ⟨h4.1, h4.2⟩

/-- Witness for C6 (amended): in the reachable one-running-job state,
`run-1` is in exactly one structure. -/
theorem queue_runId_at_most_one_witness :
    cond (inPending demoRunningState "run-1") 1 0
      + cond (inRunning demoRunningState "run-1") 1 0
      + cond (inCompleted demoRunningState "run-1") 1 0
      + cond (inDeadLetter demoRunningState "run-1") 1 0 ≤ 1 :=
  queue_runId_at_most_one ⟨demoRunningState, []⟩ demoReachable "run-1"

end Terminus
